import Mathlib

/-!
Verification of the FRMR → OSCAL build scripts.

This file gives a shallow embedding of the relevant source files:

  * `tools/scripts/oscal/uuid-generator.ts`  — deterministic UUID v5 generator
  * `tools/scripts/oscal/catalog-builder.ts` — FRMR data → OSCAL catalog
  * the mapping builder (`buildMappingCollection`)
  * `tools/scripts/build-oscal.ts`           — the source validator

JavaScript records (plain objects) are embedded as insertion-ordered
association lists `List (String × α)`; `undefined` fields become `Option`;
machine numbers that the scripts only ever turn into decimal strings are
embedded as `Nat`.  JS truthiness on optional strings (where the empty
string is falsy) is captured by `truthyStr`.
-/

set_option maxRecDepth 100000

namespace FRMROscal

/-! ## SHA-1, as used by `uuidV5` (uuid-generator.ts lines 18–40)

The Node `createHash("sha1")` digest is embedded as a pure function on
byte lists (`Nat` values below 256, arithmetic mod 2^32). -/

/-- Truncate to the low 32 bits. -/
def m32 (n : Nat) : Nat := n % 4294967296

/-- 32-bit left rotation (input assumed < 2^32, 0 < s < 32). -/
def rotl32 (n s : Nat) : Nat := m32 (n <<< s) ||| (n >>> (32 - s))

/-- SHA-1 round function, per round index `t`. -/
def sha1F (t b c d : Nat) : Nat :=
  if t < 20 then (b &&& c) ||| ((b ^^^ 4294967295) &&& d)
  else if t < 40 then b ^^^ c ^^^ d
  else if t < 60 then (b &&& c) ||| (b &&& d) ||| (c &&& d)
  else b ^^^ c ^^^ d

/-- SHA-1 round constants. -/
def sha1K (t : Nat) : Nat :=
  if t < 20 then 1518500249 else if t < 40 then 1859775393
  else if t < 60 then 2400959708 else 3395469782

/-- Big-endian 4-byte groups to 32-bit words. -/
def bytesToWords : List Nat → List Nat
  | b0 :: b1 :: b2 :: b3 :: rest =>
      (((b0 * 256 + b1) * 256 + b2) * 256 + b3) :: bytesToWords rest
  | _ => []

/-- One step of the SHA-1 message-schedule extension. -/
def sha1Extend (w : List Nat) : List Nat :=
  let i := w.length
  w ++ [rotl32 ((w.getD (i - 3) 0) ^^^ (w.getD (i - 8) 0) ^^^
                (w.getD (i - 14) 0) ^^^ (w.getD (i - 16) 0)) 1]

/-- The 80-word message schedule of one 64-byte block. -/
def sha1Words (block : List Nat) : List Nat :=
  (List.range 64).foldl (fun w _ => sha1Extend w) (bytesToWords block)

/-- One SHA-1 round on the five-register state. -/
def sha1Round (st : Nat × Nat × Nat × Nat × Nat) (tw : Nat × Nat) :
    Nat × Nat × Nat × Nat × Nat :=
  match st, tw with
  | (a, b, c, d, e), (t, w) =>
    (m32 (rotl32 a 5 + sha1F t b c d + e + sha1K t + w), a, rotl32 b 30, c, d)

/-- Compress one 64-byte block into the running state. -/
def sha1Compress (h : Nat × Nat × Nat × Nat × Nat) (block : List Nat) :
    Nat × Nat × Nat × Nat × Nat :=
  match h with
  | (h0, h1, h2, h3, h4) =>
    match ((List.range 80).zip (sha1Words block)).foldl sha1Round (h0, h1, h2, h3, h4) with
    | (a, b, c, d, e) => (m32 (h0 + a), m32 (h1 + b), m32 (h2 + c), m32 (h3 + d), m32 (h4 + e))

/-- Split into 64-byte chunks (fuel-driven structural recursion). -/
def chunks64Go : Nat → List Nat → List (List Nat)
  | 0, _ => []
  | _ + 1, [] => []
  | fuel + 1, l => l.take 64 :: chunks64Go fuel (l.drop 64)

/-- MD-style padding: 0x80, zeros to 56 mod 64, 8-byte big-endian bit length. -/
def sha1Pad (msg : List Nat) : List Nat :=
  let bitLen := msg.length * 8
  msg ++ 128 :: List.replicate ((119 - msg.length % 64) % 64) 0
      ++ (List.range 8).map (fun j => (bitLen >>> (8 * (7 - j))) &&& 255)

/-- Big-endian bytes of a 32-bit word. -/
def wordBytes (w : Nat) : List Nat :=
  [(w >>> 24) &&& 255, (w >>> 16) &&& 255, (w >>> 8) &&& 255, w &&& 255]

/-- SHA-1 digest (20 bytes) of a byte list. -/
def sha1 (msg : List Nat) : List Nat :=
  let padded := sha1Pad msg
  match (chunks64Go (padded.length + 1) padded).foldl sha1Compress
      (1732584193, 4023233417, 2562383102, 271733878, 3285377520) with
  | (h0, h1, h2, h3, h4) =>
    wordBytes h0 ++ wordBytes h1 ++ wordBytes h2 ++ wordBytes h3 ++ wordBytes h4

/-! ## UUID v5 surface form (uuid-generator.ts) -/

/-- Hex digit character (lowercase). -/
def hexDigitChar (n : Nat) : Char :=
  if n < 10 then Char.ofNat (48 + n) else Char.ofNat (87 + n)

/-- Two-character lowercase hex rendering of a byte. -/
def byteToHex (b : Nat) : String :=
  String.mk [hexDigitChar (b / 16), hexDigitChar (b % 16)]

/-- Value of a hex digit character. -/
def hexVal (c : Char) : Nat :=
  if 48 ≤ c.toNat ∧ c.toNat ≤ 57 then c.toNat - 48
  else if 97 ≤ c.toNat ∧ c.toNat ≤ 102 then c.toNat - 87
  else if 65 ≤ c.toNat ∧ c.toNat ≤ 70 then c.toNat - 55
  else 0

/-- Parse consecutive hex-digit pairs into bytes. -/
def parseHexPairs : List Char → List Nat
  | c1 :: c2 :: rest => (hexVal c1 * 16 + hexVal c2) :: parseHexPairs rest
  | _ => []

/-- Namespace-UUID parsing: strip hyphens, then read hex bytes
(uuid-generator.ts line 20). -/
def nsToBytes (s : String) : List Nat :=
  parseHexPairs (s.data.filter (fun c => c ≠ '-'))

/-- UTF-8 encoding of one character. -/
def utf8EncodeCharBytes (c : Char) : List Nat :=
  let n := c.toNat
  if n < 128 then [n]
  else if n < 2048 then [192 + n / 64, 128 + n % 64]
  else if n < 65536 then [224 + n / 4096, 128 + n / 64 % 64, 128 + n % 64]
  else [240 + n / 262144, 128 + n / 4096 % 64, 128 + n / 64 % 64, 128 + n % 64]

/-- UTF-8 bytes of a string (`update(name, "utf8")`). -/
def utf8Bytes (s : String) : List Nat := s.data.flatMap utf8EncodeCharBytes

/-- `hex.substring(a, b)` for ASCII strings. -/
def sliceStr (s : String) (a b : Nat) : String :=
  String.mk ((s.data.drop a).take (b - a))

/-- RFC 4122 DNS namespace, the fixed root (uuid-generator.ts line 12). -/
def DNS_NAMESPACE : String := "6ba7b810-9dad-11d1-80b4-00c04fd430c8"

/-- UUID v5 from a namespace UUID string and a name (uuid-generator.ts lines 18–40):
SHA-1 of namespace bytes ++ UTF-8 name, version/variant bits overwritten,
first 16 bytes rendered as a hyphenated hex string. -/
def uuidV5 (ns nm : String) : String :=
  let msg := nsToBytes ns ++ utf8Bytes nm
  let hash := sha1 msg
  let bytes :=
    hash.take 6 ++ [((hash.getD 6 0) &&& 15) ||| 80, hash.getD 7 0,
      ((hash.getD 8 0) &&& 63) ||| 128] ++ (hash.drop 9).take 7
  let hex := String.join (bytes.map byteToHex)
  String.intercalate "-"
    [sliceStr hex 0 8, sliceStr hex 8 12, sliceStr hex 12 16,
     sliceStr hex 16 20, sliceStr hex 20 32]

/-- The fixed namespace tags (`type Namespace = keyof typeof NAMESPACES`). -/
inductive NamespaceTag where
  | catalog | frd_term | frr_control | ksi_control
  | mapping_collection | mapping_entry | party | group | mapping
deriving DecidableEq, Repr

/-- Per-entity namespaces, each derived from the DNS namespace plus a fixed
label (uuid-generator.ts lines 45–55). -/
def NAMESPACES : NamespaceTag → String
  | .catalog => uuidV5 DNS_NAMESPACE "fedramp-frmr-catalog"
  | .frd_term => uuidV5 DNS_NAMESPACE "fedramp-frd-term"
  | .frr_control => uuidV5 DNS_NAMESPACE "fedramp-frr-control"
  | .ksi_control => uuidV5 DNS_NAMESPACE "fedramp-ksi-control"
  | .mapping_collection => uuidV5 DNS_NAMESPACE "fedramp-ksi-nist-mapping"
  | .mapping_entry => uuidV5 DNS_NAMESPACE "fedramp-mapping-entry"
  | .party => uuidV5 DNS_NAMESPACE "fedramp-party"
  | .group => uuidV5 DNS_NAMESPACE "fedramp-group"
  | .mapping => uuidV5 DNS_NAMESPACE "fedramp-mapping"

/-- `generateUUID` (uuid-generator.ts lines 66–68). -/
def generateUUID (tag : NamespaceTag) (id : String) : String :=
  uuidV5 (NAMESPACES tag) id

/-! ## OSCAL target types (tools/scripts/oscal/types.ts)

TypeScript optional fields become `Option`; hyphenated JSON keys become
underscored Lean field names ("id-ref" → `id_ref`, "back-matter" →
`back_matter`, and so on).  `Part` and `Group` are recursive interfaces and
are embedded as single-constructor inductives with projection functions. -/

/-- OSCAL `Property` (types.ts). -/
structure Property where
  name : String
  value : String
  ns : Option String := none
deriving DecidableEq, Repr

/-- OSCAL `Link` (types.ts). -/
structure Link where
  href : String
  rel : Option String := none
  text : Option String := none
deriving DecidableEq, Repr

/-- OSCAL `Part` (types.ts): recursive narrative part.  Optional `props` and
`parts` arrays are embedded as plain lists (absent = `[]`). -/
inductive Part where
  | mk (id : Option String) (name : String) (ns : Option String)
       (prose : Option String) (props : List Property) (parts : List Part)

/-- The `id` field of a `Part`. -/
def Part.pid : Part → Option String
  | .mk i _ _ _ _ _ => i

/-- The `name` field of a `Part`. -/
def Part.pname : Part → String
  | .mk _ n _ _ _ _ => n

/-- The `ns` field of a `Part`. -/
def Part.pns : Part → Option String
  | .mk _ _ n _ _ _ => n

/-- The `prose` field of a `Part`. -/
def Part.prose : Part → Option String
  | .mk _ _ _ p _ _ => p

/-- The `props` field of a `Part`. -/
def Part.props : Part → List Property
  | .mk _ _ _ _ ps _ => ps

/-- The nested `parts` field of a `Part`. -/
def Part.subparts : Part → List Part
  | .mk _ _ _ _ _ ps => ps

/-- OSCAL `Control` (types.ts).  The optional `class` and nested `controls`
fields are never set by the builder and are omitted. -/
structure Control where
  id : String
  title : String
  props : Option (List Property) := none
  links : Option (List Link) := none
  parts : Option (List Part) := none

/-- OSCAL `Group` (types.ts): recursive via nested sub-groups. -/
inductive Group where
  | mk (id : Option String) (title : String) (props : Option (List Property))
       (parts : Option (List Part)) (controls : Option (List Control))
       (groups : Option (List Group))

/-- The `id` field of a `Group`. -/
def Group.gid : Group → Option String
  | .mk i _ _ _ _ _ => i

/-- The `title` field of a `Group`. -/
def Group.title : Group → String
  | .mk _ t _ _ _ _ => t

/-- The `props` field of a `Group`. -/
def Group.props : Group → Option (List Property)
  | .mk _ _ p _ _ _ => p

/-- The `parts` field of a `Group`. -/
def Group.parts : Group → Option (List Part)
  | .mk _ _ _ p _ _ => p

/-- The `controls` field of a `Group`. -/
def Group.controls : Group → Option (List Control)
  | .mk _ _ _ _ c _ => c

/-- The nested `groups` field of a `Group`. -/
def Group.subgroups : Group → Option (List Group)
  | .mk _ _ _ _ _ g => g

/-- OSCAL `Citation` (types.ts). -/
structure Citation where
  text : String
  links : Option (List Link) := none

/-- OSCAL `BackMatterResource` (types.ts). -/
structure BackMatterResource where
  uuid : String
  title : Option String := none
  description : Option String := none
  citation : Option Citation := none
  props : Option (List Property) := none

/-- OSCAL `BackMatter` (types.ts). -/
structure BackMatter where
  resources : List BackMatterResource

/-- OSCAL `Role` (types.ts). -/
structure Role where
  id : String
  title : String

/-- OSCAL `Party` (types.ts). -/
structure Party where
  uuid : String
  type : String
  name : String
  short_name : Option String := none
  links : Option (List Link) := none

/-- OSCAL `ResponsibleParty` (types.ts). -/
structure ResponsibleParty where
  role_id : String
  party_uuids : List String

/-- OSCAL `Metadata` (types.ts), restricted to the fields the builders set. -/
structure Metadata where
  title : String
  last_modified : String
  version : String
  oscal_version : String
  roles : List Role
  parties : List Party
  responsible_parties : List ResponsibleParty
  props : Option (List Property) := none

/-- OSCAL `Catalog` (types.ts).  `groups` and `back-matter` are always
populated by `buildCatalog`, so they are embedded as plain fields. -/
structure Catalog where
  uuid : String
  metadata : Metadata
  groups : List Group
  back_matter : BackMatter

/-- Wrapper `OSCALCatalog` (types.ts). -/
structure OSCALCatalog where
  catalog : Catalog

/-- OSCAL `MappingResourceReference` (types.ts). -/
structure MappingResourceReference where
  type : String
  href : String

/-- A source/target reference of a map entry (`{ type, "id-ref" }`). -/
structure MappedRef where
  type : String
  id_ref : String
deriving DecidableEq, Repr

/-- OSCAL `MapEntry` (types.ts). -/
structure MapEntry where
  uuid : String
  relationship : String
  sources : List MappedRef
  targets : List MappedRef
deriving DecidableEq, Repr

/-- OSCAL `Mapping` (types.ts). -/
structure Mapping where
  uuid : String
  source_resource : MappingResourceReference
  target_resource : MappingResourceReference
  maps : List MapEntry

/-- OSCAL `Provenance` (types.ts). -/
structure Provenance where
  method : String
  matching_rationale : String
  status : String
  mapping_description : String

/-- OSCAL `MappingCollection` (types.ts). -/
structure MappingCollection where
  uuid : String
  metadata : Metadata
  provenance : Provenance
  mappings : List Mapping

/-- Wrapper `OSCALMappingCollection` (types.ts). -/
structure OSCALMappingCollection where
  mapping_collection : MappingCollection

/-! ## FRMR source types (tools/scripts/oscal/types.ts)

JS records are insertion-ordered association lists.  The `updated`
changelog arrays, `reference`/`reference_url` on requirements, `labels` and
the untyped `effective` record on process info are never read by any of the
embedded scripts and are omitted. -/

/-- `FRMRInfo` (types.ts). -/
structure FRMRInfo where
  title : String := ""
  description : String := ""
  version : String := ""
  last_updated : String := ""
deriving DecidableEq

/-- `FRDTermEntry` (types.ts). -/
structure FRDTermEntry where
  fka : Option String := none
  term : String := ""
  alts : Option (List String) := none
  definition : String := ""
  note : Option String := none
  reference : Option String := none
  reference_url : Option String := none
deriving DecidableEq

/-- A per-level variant inside `varies_by_level` (types.ts). -/
structure LevelVariant where
  statement : String := ""
  primary_key_word : String := ""
  timeframe_type : Option String := none
  timeframe_num : Option Nat := none
deriving DecidableEq

/-- An entry of `FRRRequirement.examples` (types.ts). -/
structure ExampleEntry where
  id : String := ""
  key_tests : Option (List String) := none
  examples : Option (List String) := none
deriving DecidableEq

/-- An entry of `FRRRequirement.notification` (types.ts). -/
structure NotificationEntry where
  party : String := ""
  method : String := ""
  target : String := ""
deriving DecidableEq

/-- The `impact` field is `string | Record<string, boolean>`; embedded as an
explicit two-case sum. -/
inductive ImpactValue where
  | text (s : String)
  | flags (m : List (String × Bool))
deriving DecidableEq

/-- `FRRRequirement` (types.ts). -/
structure FRRRequirement where
  fka : Option String := none
  fkas : Option (List String) := none
  name : Option String := none
  statement : Option String := none
  primary_key_word : Option String := none
  terms : Option (List String) := none
  affects : Option (List String) := none
  notes : Option (List String) := none
  note : Option String := none
  examples : Option (List ExampleEntry) := none
  following_information : Option (List String) := none
  following_information_bullets : Option (List String) := none
  notification : Option (List NotificationEntry) := none
  timeframe_type : Option String := none
  timeframe_num : Option Nat := none
  varies_by_level : Option (List (String × LevelVariant)) := none
  impact : Option ImpactValue := none
  danger : Option String := none
deriving DecidableEq

/-- An authority citation in process front matter (types.ts). -/
structure AuthorityEntry where
  reference : String := ""
  reference_url : Option String := none
  description : String := ""
  delegation : Option String := none
  delegation_url : Option String := none
deriving DecidableEq

/-- Process front matter (types.ts). -/
structure FrontMatter where
  authority : Option (List AuthorityEntry) := none
  purpose : Option String := none
  expected_outcomes : Option (List String) := none
deriving DecidableEq

/-- `FRRProcessInfo` (types.ts). -/
structure FRRProcessInfo where
  name : String := ""
  short_name : String := ""
  web_name : String := ""
  front_matter : FrontMatter := {}
deriving DecidableEq

/-- `FRRProcess` (types.ts): `data` maps applicability → label → key →
requirement. -/
structure FRRProcess where
  info : FRRProcessInfo := {}
  data : List (String × List (String × List (String × FRRRequirement))) := []
deriving DecidableEq

/-- `KSIIndicator` (types.ts). -/
structure KSIIndicator where
  fka : Option String := none
  name : String := ""
  statement : String := ""
  reference : Option String := none
  reference_url : Option String := none
  controls : Option (List String) := none
  terms : Option (List String) := none
deriving DecidableEq

/-- `KSIDomain` (types.ts). -/
structure KSIDomain where
  id : String := ""
  name : String := ""
  web_name : String := ""
  short_name : String := ""
  theme : String := ""
  indicators : List (String × KSIIndicator) := []
deriving DecidableEq

/-- The glossary section `FRMRData.FRD` (types.ts). -/
structure FRDSection where
  info : FRRProcessInfo := {}
  data : List (String × List (String × FRDTermEntry)) := []
deriving DecidableEq

/-- `FRMRData` (types.ts): the whole source document. -/
structure FRMRData where
  info : FRMRInfo := {}
  FRD : FRDSection := {}
  FRR : List (String × FRRProcess) := []
  KSI : List (String × KSIDomain) := []
deriving DecidableEq

/-! ## Shared helpers -/

/-- JS truthiness of an optional string: `undefined` and `""` are falsy. -/
def truthyStr : Option String → Bool
  | none => false
  | some s => !(s == "")

/-- `Map.get`: the most recent binding of a key, if any.  The maps built
below push new bindings at the front, so the first match is the last write
(last-write-wins, as for a JS `Map`). -/
def mapGet (m : List (String × String)) (k : String) : Option String :=
  (m.find? (fun p => p.1 == k)).map (fun p => p.2)

/-- `String.toLowerCase()`, modelled on character data (the core
`String.toLower` is defined by well-founded position recursion and does not
reduce inside the kernel, so witnesses could not evaluate it). -/
def strLower (s : String) : String := String.mk (s.data.map Char.toLower)

/-- `String.toUpperCase()`, modelled on character data. -/
def strUpper (s : String) : String := String.mk (s.data.map Char.toUpper)

/-- FedRAMP namespace for custom properties and parts
(catalog-builder.ts line 35). -/
def FEDRAMP_NS : String := "https://fedramp.gov/ns/oscal"

/-- `fProp` (catalog-builder.ts lines 38–40). -/
def fProp (name value : String) : Property :=
  { name := name, value := value, ns := some FEDRAMP_NS }

/-! ## Catalog builder (tools/scripts/oscal/catalog-builder.ts) -/

/-- `buildTermUUIDMap` (catalog-builder.ts lines 45–61): term display name
and every alias (case-folded) → the term's deterministic resource UUID.
New bindings are consed at the front and `mapGet` takes the first match, so
lookups see the latest write, as with a JS `Map`. -/
def buildTermUUIDMap (frdData : List (String × List (String × FRDTermEntry))) :
    List (String × String) :=
  frdData.foldl (fun m ap =>
    ap.2.foldl (fun m te =>
      let uuid := generateUUID .frd_term te.1
      let m := (strLower te.2.term, uuid) :: m
      match te.2.alts with
      | some alts => alts.foldl (fun m alt => (strLower alt, uuid) :: m) m
      | none => m) m) []

/-- The dedup key of a link: href and rel joined by a bar
(catalog-builder.ts line 67). -/
def linkKey (l : Link) : String := l.href ++ "|" ++ l.rel.getD ""

/-- Worker for `deduplicateLinks`, threading the `seen` key set. -/
def dedupGo (seen : List String) : List Link → List Link
  | [] => []
  | l :: rest =>
    if seen.contains (linkKey l) then dedupGo seen rest
    else l :: dedupGo (linkKey l :: seen) rest

/-- `deduplicateLinks` (catalog-builder.ts lines 63–72): keep the first link
for each href+rel key. -/
def deduplicateLinks (links : List Link) : List Link := dedupGo [] links

/-- All (applicability, label, reqId, requirement) occurrences of a process,
in source iteration order. -/
def processReqOccs (p : FRRProcess) :
    List (String × String × String × FRRRequirement) :=
  p.data.flatMap (fun ap => ap.2.flatMap (fun lb =>
    lb.2.map (fun rq => (ap.1, lb.1, rq.1, rq.2))))

/-- The requirement keys of a process, one per occurrence. -/
def processReqKeys (p : FRRProcess) : List String :=
  (processReqOccs p).map (fun o => o.2.2.1)

/-- `findDuplicateReqIds` (catalog-builder.ts lines 77–95): the ids whose
applicability list has more than one push, i.e. ids with at least two
occurrences in the process. -/
def findDuplicateReqIds (p : FRRProcess) : List String :=
  ((processReqKeys p).filter (fun k => 2 ≤ (processReqKeys p).count k)).dedup

/-- Props from `fka`/`fkas` (catalog-builder.ts lines 122–129): a truthy
`fka` string gives one prop, an `fkas` array one per entry. -/
def fkaProps (req : FRRRequirement) : List Property :=
  (match req.fka with
   | some s => if s == "" then [] else [fProp "fka" s]
   | none => []) ++
  (match req.fkas with
   | some l => l.map (fun s => fProp "fka" s)
   | none => [])

/-- Props from `affects` (catalog-builder.ts lines 131–135). -/
def affectsProps (req : FRRRequirement) : List Property :=
  match req.affects with
  | some l => l.map (fun a => fProp "affects" a)
  | none => []

/-- Flat-case keyword/timeframe props (catalog-builder.ts lines 166–175):
empty strings are falsy and skipped; `timeframe_num` is an explicit
undefined test. -/
def flatKeywordProps (req : FRRRequirement) : List Property :=
  (match req.primary_key_word with
   | some s => if s == "" then [] else [fProp "keyword" s]
   | none => []) ++
  (match req.timeframe_type with
   | some s => if s == "" then [] else [fProp "timeframe-type" s]
   | none => []) ++
  (match req.timeframe_num with
   | some n => [fProp "timeframe-num" (toString n)]
   | none => [])

/-- Per-level props of one level variant (catalog-builder.ts lines 141–152). -/
def levelVariantProps (lv : LevelVariant) (level : String) : List Property :=
  [fProp "level" level, fProp "keyword" lv.primary_key_word] ++
  (match lv.timeframe_type with
   | some s => if s == "" then [] else [fProp "timeframe-type" s]
   | none => []) ++
  (match lv.timeframe_num with
   | some n => [fProp "timeframe-num" (toString n)]
   | none => [])

/-- The nested per-level statement parts (catalog-builder.ts lines 139–159). -/
def levelStatementParts (controlId : String)
    (vbl : List (String × LevelVariant)) : List Part :=
  vbl.map (fun lv =>
    Part.mk (some (controlId ++ "_stmt_" ++ lv.1)) "item" none
      (some lv.2.statement) (levelVariantProps lv.2 lv.1) [])

/-- Flat-case follow-up item parts (catalog-builder.ts lines 184–202):
free-form items first, then bullets, each numbered from 1 within its own
kind. -/
def followUpItemParts (controlId : String) (req : FRRRequirement) : List Part :=
  (match req.following_information with
   | some l => l.enum.map (fun p =>
       Part.mk (some (controlId ++ "_stmt_item_" ++ toString (p.1 + 1))) "item"
         none (some p.2) [] [])
   | none => []) ++
  (match req.following_information_bullets with
   | some l => l.enum.map (fun p =>
       Part.mk (some (controlId ++ "_stmt_bullet_" ++ toString (p.1 + 1))) "item"
         none (some p.2) [] [])
   | none => [])

/-- The statement parts of a requirement control (catalog-builder.ts lines
138–209): a truthy `varies_by_level` takes the level-variant branch,
otherwise a truthy flat `statement` yields one prose part. -/
def statementParts (controlId : String) (req : FRRRequirement) : List Part :=
  match req.varies_by_level with
  | some vbl =>
    [Part.mk (some (controlId ++ "_stmt")) "statement" none none []
      (levelStatementParts controlId vbl)]
  | none =>
    match req.statement with
    | some s =>
      if s == "" then []
      else [Part.mk (some (controlId ++ "_stmt")) "statement" none (some s) []
              (followUpItemParts controlId req)]
    | none => []

/-- One rendered example of the guidance part (catalog-builder.ts lines
214–228). -/
def renderExample (ex : ExampleEntry) : String :=
  String.intercalate "\n"
    (["**" ++ ex.id ++ "**"] ++
     (match ex.key_tests with
      | some kt => "Key tests:" :: kt.map (fun t => "- " ++ t)
      | none => []) ++
     (match ex.examples with
      | some egs => egs.map (fun e => "- " ++ e)
      | none => []))

/-- The guidance part (catalog-builder.ts lines 212–236). -/
def guidanceParts (controlId : String) (req : FRRRequirement) : List Part :=
  match req.examples with
  | some l =>
    if l.isEmpty then []
    else [Part.mk (some (controlId ++ "_guidance")) "guidance" (some FEDRAMP_NS)
            (some (String.intercalate "\n\n" (l.map renderExample))) [] []]
  | none => []

/-- The assessment part from `note`/`notes` (catalog-builder.ts lines
239–249). -/
def assessmentParts (controlId : String) (req : FRRRequirement) : List Part :=
  let noteTexts :=
    (match req.note with
     | some s => if s == "" then [] else [s]
     | none => []) ++
    (match req.notes with | some l => l | none => [])
  if noteTexts.isEmpty then []
  else [Part.mk (some (controlId ++ "_assessment")) "assessment"
          (some FEDRAMP_NS) (some (String.intercalate "\n\n" noteTexts)) [] []]

/-- Danger and impact props (catalog-builder.ts lines 252–263); a flag-map
impact is rendered as the comma-joined true flag names. -/
def dangerImpactProps (req : FRRRequirement) : List Property :=
  (match req.danger with
   | some s => if s == "" then [] else [fProp "danger" s]
   | none => []) ++
  (match req.impact with
   | some (.text s) => if s == "" then [] else [fProp "impact" s]
   | some (.flags m) =>
       [fProp "impact"
         (String.intercalate "," ((m.filter (fun p => p.2)).map (fun p => p.1)))]
   | none => [])

/-- Notification props (catalog-builder.ts lines 266–273), indexed from 1 in
entry order. -/
def notificationProps (req : FRRRequirement) : List Property :=
  match req.notification with
  | some l => l.enum.flatMap (fun p =>
      [fProp ("notification-" ++ toString (p.1 + 1) ++ "-party") p.2.party,
       fProp ("notification-" ++ toString (p.1 + 1) ++ "-method") p.2.method,
       fProp ("notification-" ++ toString (p.1 + 1) ++ "-target") p.2.target])
  | none => []

/-- Term links (catalog-builder.ts lines 276–283): references that resolve
in the index become links to the glossary resource; unresolved ones are
silently dropped. -/
def termLinks (termMap : List (String × String)) (terms : Option (List String)) :
    List Link :=
  match terms with
  | some ts => ts.filterMap (fun t =>
      (mapGet termMap (strLower t)).map (fun u =>
        { href := "#" ++ u, rel := some "term", text := some t }))
  | none => []

/-- The output control id (catalog-builder.ts lines 108–110): the lowercased
key, with `_` and the applicability tag appended verbatim when the key
recurs across applicability entries. -/
def controlIdOf (reqId applicability : String) (needsSuffix : Bool) : String :=
  if needsSuffix then strLower reqId ++ "_" ++ applicability else strLower reqId

/-- `buildRequirementControl` (catalog-builder.ts lines 99–292). -/
def buildRequirementControl (reqId : String) (req : FRRRequirement)
    (applicability label : String) (termMap : List (String × String))
    (needsSuffix : Bool) : Control :=
  let controlId := controlIdOf reqId applicability needsSuffix
  let props :=
    [{ name := "label", value := label, ns := none },
     fProp "applicability" applicability] ++
    fkaProps req ++ affectsProps req ++
    (if req.varies_by_level.isSome then [] else flatKeywordProps req) ++
    dangerImpactProps req ++ notificationProps req
  let parts :=
    statementParts controlId req ++ guidanceParts controlId req ++
    assessmentParts controlId req
  let links := termLinks termMap req.terms
  { id := controlId,
    title := match req.name with
             | some s => if s == "" then reqId else s
             | none => reqId,
    props := if props.isEmpty then none else some props,
    links := if links.isEmpty then none else some (deduplicateLinks links),
    parts := if parts.isEmpty then none else some parts }

/-- One rendered authority citation (catalog-builder.ts lines 341–351). -/
def renderAuthority (auth : AuthorityEntry) : String :=
  String.intercalate "\n"
    (["**" ++ auth.reference ++ "**", auth.description] ++
     (match auth.delegation with
      | some d => if d == "" then [] else ["_Delegation: " ++ d ++ "_"]
      | none => []))

/-- Process-level narrative parts: purpose and authority
(catalog-builder.ts lines 326–358). -/
def processParts (p : FRRProcess) : List Part :=
  (match p.info.front_matter.purpose with
   | some s => if s == "" then [] else [Part.mk none "overview" none (some s) [] []]
   | none => []) ++
  (match p.info.front_matter.authority with
   | some l =>
     if l.isEmpty then []
     else [Part.mk none "instruction" none
             (some (String.intercalate "\n\n" (l.map renderAuthority)))
             [fProp "type" "authority"] []]
   | none => [])

/-- `buildProcessGroup` (catalog-builder.ts lines 296–367). -/
def buildProcessGroup (processKey : String) (p : FRRProcess)
    (termMap : List (String × String)) : Group :=
  let groupId := strLower processKey
  let duplicateIds := findDuplicateReqIds p
  let controls := (processReqOccs p).map (fun o =>
    buildRequirementControl o.2.2.1 o.2.2.2 o.1 o.2.1 termMap
      (duplicateIds.contains o.2.2.1))
  let parts := processParts p
  Group.mk (some groupId) p.info.name
    (some [fProp "short-name" p.info.short_name])
    (if parts.isEmpty then none else some parts)
    (if controls.isEmpty then none else some controls) none

/-- NIST control-reference links of an indicator (catalog-builder.ts lines
397–405). -/
def nistControlLinks (ind : KSIIndicator) : List Link :=
  match ind.controls with
  | some cs => cs.map (fun c =>
      { href := "#" ++ c, rel := some "related", text := some (strUpper c) })
  | none => []

/-- One indicator control (catalog-builder.ts lines 379–423). -/
def buildIndicatorControl (indicatorId : String) (ind : KSIIndicator)
    (termMap : List (String × String)) : Control :=
  let controlId := strLower indicatorId
  let props :=
    match ind.fka with
    | some s => if s == "" then [] else [fProp "fka" s]
    | none => []
  let parts := [Part.mk (some (controlId ++ "_stmt")) "statement" none
    (some ind.statement) [] []]
  let links := nistControlLinks ind ++ termLinks termMap ind.terms
  { id := controlId, title := ind.name,
    props := if props.isEmpty then none else some props,
    links := if links.isEmpty then none else some (deduplicateLinks links),
    parts := if parts.isEmpty then none else some parts }

/-- `buildKSIDomainGroup` (catalog-builder.ts lines 371–432); the TS
`domainKey` parameter is unused there (the group id comes from `domain.id`)
and is omitted here. -/
def buildKSIDomainGroup (domain : KSIDomain)
    (termMap : List (String × String)) : Group :=
  let controls := domain.indicators.map (fun ind =>
    buildIndicatorControl ind.1 ind.2 termMap)
  Group.mk (some (strLower domain.id)) domain.name
    (some [fProp "theme" domain.theme])
    none (if controls.isEmpty then none else some controls) none

/-- All (termId, entry) occurrences of the glossary, in source order across
applicability partitions. -/
def frdOccs (frdData : List (String × List (String × FRDTermEntry))) :
    List (String × FRDTermEntry) :=
  frdData.flatMap (fun ap => ap.2)

/-- `buildBackMatter` (catalog-builder.ts lines 436–471): one resource per
glossary term, with the same deterministic UUID the term map uses. -/
def buildBackMatter (frdData : List (String × List (String × FRDTermEntry))) :
    BackMatter :=
  { resources := (frdOccs frdData).map (fun te =>
      { uuid := generateUUID .frd_term te.1,
        title := some te.2.term,
        description := some te.2.definition,
        citation :=
          match te.2.reference with
          | some r =>
            if r == "" then none
            else some { text := r,
                        links := match te.2.reference_url with
                                 | some u => if u == "" then none
                                             else some [{ href := u }]
                                 | none => none }
          | none => none,
        props := some ([fProp "term-id" te.1] ++
          (match te.2.fka with
           | some f => if f == "" then [] else [fProp "fka" f]
           | none => [])) }) }

/-- `buildMetadata` of the catalog builder (catalog-builder.ts lines
475–504); the wall-clock reading is modelled as the explicit `now`
parameter. -/
def buildCatalogMetadata (frmr : FRMRData) (now : String) : Metadata :=
  let partyUUID := generateUUID .party "fedramp-pmo"
  { title := "FedRAMP Requirements and Recommendations (FRMR) Catalog",
    last_modified := now,
    version := frmr.info.version,
    oscal_version := "1.2.0",
    roles := [{ id := "publisher", title := "Document Publisher" }],
    parties := [{ uuid := partyUUID, type := "organization",
                  name := "Federal Risk and Authorization Management Program (FedRAMP)",
                  short_name := some "FedRAMP",
                  links := some [{ href := "https://www.fedramp.gov",
                                   rel := some "homepage" }] }],
    responsible_parties := [{ role_id := "publisher",
                              party_uuids := [partyUUID] }],
    props := some [fProp "source-version" frmr.info.version,
                   fProp "source-last-updated" frmr.info.last_updated] }

/-- `buildCatalog` (catalog-builder.ts lines 508–540). -/
def buildCatalog (frmr : FRMRData) (now : String) : OSCALCatalog :=
  let termMap := buildTermUUIDMap frmr.FRD.data
  let frrGroups := frmr.FRR.map (fun pr => buildProcessGroup pr.1 pr.2 termMap)
  let ksiDomainGroups := frmr.KSI.map (fun dm => buildKSIDomainGroup dm.2 termMap)
  let ksiTopGroup := Group.mk (some "key-security-indicators")
    "Key Security Indicators" none none none (some ksiDomainGroups)
  { catalog :=
    { uuid := generateUUID .catalog ("fedramp-frmr-" ++ frmr.info.version),
      metadata := buildCatalogMetadata frmr now,
      groups := frrGroups ++ [ksiTopGroup],
      back_matter := buildBackMatter frmr.FRD.data } }

/-! ## Mapping builder (`buildMappingCollection`) -/

/-- Fixed external NIST catalog reference of the mapping document. -/
def NIST_CATALOG_HREF : String :=
  "https://raw.githubusercontent.com/usnistgov/oscal-content/main/nist.gov/SP800-53/rev5/json/NIST_SP-800-53_rev5_catalog.json"

/-- Relative reference to the produced catalog document. -/
def FEDRAMP_CATALOG_HREF : String := "./fedramp-frmr-catalog.json"

/-- The mapping document's metadata (mapping builder lines 21–46). -/
def buildMappingMetadata (frmr : FRMRData) (now : String) : Metadata :=
  let partyUUID := generateUUID .party "fedramp-pmo"
  { title := "FedRAMP KSI to NIST SP 800-53 Rev 5 Mapping",
    last_modified := now,
    version := frmr.info.version,
    oscal_version := "1.2.0",
    roles := [{ id := "publisher", title := "Document Publisher" }],
    parties := [{ uuid := partyUUID, type := "organization",
                  name := "Federal Risk and Authorization Management Program (FedRAMP)",
                  short_name := some "FedRAMP",
                  links := some [{ href := "https://www.fedramp.gov",
                                   rel := some "homepage" }] }],
    responsible_parties := [{ role_id := "publisher",
                              party_uuids := [partyUUID] }] }

/-- `buildProvenance` (mapping builder lines 48–57). -/
def buildProvenance : Provenance :=
  { method := "hybrid", matching_rationale := "functional",
    status := "complete",
    mapping_description :=
      "Maps FedRAMP Key Security Indicators to NIST SP 800-53 Rev 5 controls. KSI indicators aggregate multiple NIST controls into security outcomes." }

/-- `buildMappingCollection` (mapping builder lines 59–115).  The imperative
push/continue loop over domains and indicators is embedded as nested left
folds on the accumulated entry list. -/
def buildMappingCollection (frmr : FRMRData) (now : String) :
    OSCALMappingCollection :=
  let maps := frmr.KSI.foldl (fun acc dm =>
    dm.2.indicators.foldl (fun acc ind =>
      match ind.2.controls with
      | none => acc
      | some cs =>
        if cs.isEmpty then acc
        else acc ++ [{ uuid := generateUUID .mapping_entry ind.1,
                       relationship := "superset-of",
                       sources := [{ type := "control",
                                     id_ref := strLower ind.1 }],
                       targets := cs.map (fun c =>
                         { type := "control", id_ref := c }) }]) acc) []
  { mapping_collection :=
    { uuid := generateUUID .mapping_collection
        ("fedramp-ksi-nist-" ++ frmr.info.version),
      metadata := buildMappingMetadata frmr now,
      provenance := buildProvenance,
      mappings := [{ uuid := generateUUID .mapping "fedramp-ksi-to-nist",
                     source_resource := { type := "catalog",
                                          href := FEDRAMP_CATALOG_HREF },
                     target_resource := { type := "catalog",
                                          href := NIST_CATALOG_HREF },
                     maps := maps }] } }

/-! ## Source validator (tools/scripts/build-oscal.ts) -/

/-- All requirement occurrences of the document, in validator iteration
order (process → applicability → label → key). -/
def allReqOccs (data : FRMRData) :
    List (String × String × String × FRRRequirement) :=
  data.FRR.flatMap (fun pr => processReqOccs pr.2)

/-- `validateSource` (build-oscal.ts lines 21–63), returning the collected
violation list (the CLI driver prints it and exits non-zero when it is
nonempty).  The `FRD.data` presence check can never fire on a typed
document — a record, even an empty one, is truthy — and so contributes no
entry here. -/
def validateSource (data : FRMRData) : List String :=
  (if data.info.version == "" then ["Missing info.version"] else []) ++
  (if data.FRR.isEmpty then ["Missing or empty FRR section"] else []) ++
  (if data.KSI.isEmpty then ["Missing or empty KSI section"] else []) ++
  (allReqOccs data).filterMap (fun o =>
    if !truthyStr o.2.2.2.statement && o.2.2.2.varies_by_level.isNone then
      some ("Requirement " ++ o.2.2.1 ++ " has no statement or varies_by_level")
    else none)

/-! ## Observation helpers over the built documents -/

/-- The props list of a control (absent = empty). -/
def Control.propsL (c : Control) : List Property := c.props.getD []

/-- The links list of a control (absent = empty). -/
def Control.linksL (c : Control) : List Link := c.links.getD []

/-- The parts list of a control (absent = empty). -/
def Control.partsL (c : Control) : List Part := c.parts.getD []

/-- The controls of a group (absent = empty). -/
def Group.controlsL (g : Group) : List Control := g.controls.getD []

/-- The sub-groups of a group (absent = empty). -/
def Group.subgroupsL (g : Group) : List Group := g.subgroups.getD []

/-- All controls of a catalog: the top-level groups' own controls, then the
controls of their sub-groups (the builder nests at most two levels). -/
def allCatalogControls (c : Catalog) : List Control :=
  c.groups.flatMap (fun g => g.controlsL) ++
  (c.groups.flatMap Group.subgroupsL).flatMap (fun sg => sg.controlsL)

/-- Every Group id and Control id of the catalog: top-level group ids,
sub-group ids, then all control ids. -/
def catalogIds (c : Catalog) : List String :=
  c.groups.filterMap Group.gid ++
  (c.groups.flatMap Group.subgroupsL).filterMap Group.gid ++
  c.groups.flatMap (fun g => (g.controlsL).map Control.id) ++
  (c.groups.flatMap Group.subgroupsL).flatMap
    (fun g => (g.controlsL).map Control.id)

/-- The map entries of the single mapping of a built collection. -/
def mapsOf (m : OSCALMappingCollection) : List MapEntry :=
  match m.mapping_collection.mappings with
  | [] => []
  | mp :: _ => mp.maps

/-- No underscore occurs in the string. -/
def noU (s : String) : Prop := '_' ∉ s.data

instance (s : String) : Decidable (noU s) := by
  unfold noU
  infer_instance

/-- Level-variant record of the C3 witness. -/
def c3Vbl : List (String × LevelVariant) :=
  [("low", { statement := "low statement", primary_key_word := "MUST" })]

/-- A requirement with level-variant statements only. -/
def c3VariesReq : FRRRequirement := { varies_by_level := some c3Vbl }

/-- A requirement with a flat statement and one follow-up item. -/
def c3FlatReq : FRRRequirement :=
  { statement := some "flat statement",
    following_information := some ["item one"] }

/-- A document whose only requirement is the given one, with otherwise
well-formed sections. -/
def soloReqDoc (rid : String) (req : FRRRequirement) : FRMRData :=
  { info := { version := "1.0" },
    FRD := { data := [] },
    FRR := [("proc", { data := [("a", [("L", [(rid, req)])])] })],
    KSI := [("dom", { id := "ksi-dom", indicators := [] })] }

/-- The C10 witness requirement: both a flat statement and level variants,
plus flat-only material that the builder drops. -/
def c10Req : FRRRequirement :=
  { statement := some "flat statement",
    primary_key_word := some "SHOULD",
    following_information := some ["dropped item"],
    varies_by_level := some [("low",
      { statement := "low s", primary_key_word := "MUST" })] }

/-- The control id every requirement occurrence of a process receives: the
bare lowercased key, or the lowercased key suffixed with `_` and the
applicability tag when the key has at least two occurrences. -/
def processControlIds (p : FRRProcess) : List String :=
  (processReqOccs p).map (fun o =>
    if 2 ≤ (processReqKeys p).count o.2.2.1
    then strLower o.2.2.1 ++ "_" ++ o.1
    else strLower o.2.2.1)

/-- C2 counterexample process: the key "R-1" occurs under the applicability
partitions "A" and "B"; the key "R-2" occurs exactly once. -/
def c2Proc : FRRProcess :=
  { data := [("A", [("L", [("R-1", { statement := some "s" }),
                           ("R-2", { statement := some "s" })])]),
             ("B", [("L", [("R-1", { statement := some "s" })])])] }

/-- The C6 witness: a requirement referencing both "ET" and "Example Term",
with an index resolving both to the same id. -/
def c6Req : FRRRequirement := { terms := some ["ET", "Example Term"] }

/-- The C6 witness term index. -/
def c6Map : List (String × String) :=
  [("et", "u-1"), ("example term", "u-1")]

/-- The C6 witness indicator: same two term references, plus an external
control reference so the "related" links share the dedup pass. -/
def c6Ind : KSIIndicator :=
  { name := "I", statement := "s", controls := some ["ac-2"],
    terms := some ["ET", "Example Term"] }

/-- The C7 witness document: one glossary term with an alias, one
requirement referencing the alias. -/
def c7Doc : FRMRData :=
  { info := { version := "1.0" },
    FRD := { data := [("x", [("term-1",
      { term := "Example Term", alts := some ["ET"], definition := "d" })])] },
    FRR := [("proc",
      { data := [("a", [("L", [("R-1",
          { statement := some "flat", terms := some ["ET"] })])])] })],
    KSI := [] }

/-- The first control of the C7 witness catalog. -/
def c7Ctrl : Control :=
  (allCatalogControls (buildCatalog c7Doc "").catalog).headD
    { id := "", title := "" }

/-- The first link of that control. -/
def c7Link : Link := c7Ctrl.linksL.headD { href := "" }

/-- The distinct requirement keys of a process (exact strings, first
occurrence order). -/
def reqKeysDedup (p : FRRProcess) : List String :=
  (processReqKeys p).dedup

/-- All lowercased identifier tokens a document contributes to catalog ids:
process keys, the fixed indicators-group id, domain ids, indicator keys,
and the per-process distinct requirement keys. -/
def docTokens (d : FRMRData) : List String :=
  d.FRR.map (fun pr => strLower pr.1) ++
  ["key-security-indicators"] ++
  d.KSI.map (fun dm => strLower dm.2.id) ++
  d.KSI.flatMap (fun dm => dm.2.indicators.map (fun ind => strLower ind.1)) ++
  d.FRR.flatMap (fun pr => (reqKeysDedup pr.2).map strLower)

/-- The C1 counterexample document: two distinct requirement keys "ABC" and
"abc" under two labels of one partition — allowed by the §3 source
invariants — produce the duplicate control id "abc". -/
def c1Doc : FRMRData :=
  { info := { version := "1.0" },
    FRD := { data := [] },
    FRR := [("proc",
      { data := [("a", [("L1", [("ABC", { statement := some "s" })]),
                        ("L2", [("abc", { statement := some "s" })])])] })],
    KSI := [("dom",
      { id := "ksi-dom",
        indicators := [("KSI-1", { name := "I", statement := "s" })] })] }

/-- The C1 witness document: distinct, underscore-free lowercased tokens
everywhere; "R-1" recurs across the two partitions, "R-2" occurs once. -/
def c1GoodDoc : FRMRData :=
  { info := { version := "1.0" },
    FRD := { data := [] },
    FRR := [("proc",
      { data := [("a", [("L", [("R-1", { statement := some "s" }),
                               ("R-2", { statement := some "s" })])]),
                 ("b", [("L", [("R-1", { statement := some "s" })])])] })],
    KSI := [("dom",
      { id := "ksi-dom",
        indicators := [("KSI-1", { name := "I", statement := "s" })] })] }

/-- The fixed C8 input: one glossary term "Example Term" with alias "ET",
one requirement with a flat statement referencing "ET", one indicator with
the single external control reference "ac-2". -/
def c8Doc : FRMRData :=
  { info := { version := "1.0" },
    FRD := { data := [("x", [("term-1",
      { term := "Example Term", alts := some ["ET"], definition := "d" })])] },
    FRR := [("proc",
      { info := { name := "P", short_name := "p" },
        data := [("a", [("L", [("R-1",
          { statement := some "flat statement",
            terms := some ["ET"] })])])] })],
    KSI := [("dom",
      { id := "ksi-dom", name := "D", theme := "t",
        indicators := [("KSI-1",
          { name := "Ind", statement := "s",
            controls := some ["ac-2"] })] })] }

/-- The C5 witness document: version present, glossary present, one
statement-less requirement, no indicators. -/
def c5Doc : FRMRData :=
  { info := { version := "1.0" },
    FRD := { data := [] },
    FRR := [("proc", { data := [("a", [("L", [("R-1", {})])])] })],
    KSI := [] }

/-! ## General lemmas -/

theorem if_isEmpty_getD {α : Type} (l : List α) :
    (if l.isEmpty then none else some l).getD [] = l := by
  cases l <;> simp

theorem headD_mem {α : Type} {l : List α} (h : l ≠ []) (d : α) :
    l.headD d ∈ l := by
  cases l with
  | nil => exact absurd rfl h
  | cons a t => simp

theorem two_mem_count {α β : Type} [DecidableEq β] (f : α → β) (l : List α)
    (a b : α) (ha : a ∈ l) (hb : b ∈ l) (hab : a ≠ b) (hf : f a = f b) :
    2 ≤ (l.map f).count (f a) := by
  induction l with
  | nil => simp at ha
  | cons x t ih =>
    rcases List.mem_cons.mp ha with rfl | ha'
    · have hb' : b ∈ t := by
        rcases List.mem_cons.mp hb with rfl | h
        · exact absurd rfl hab
        · exact h
      have h1 : 0 < (t.map f).count (f a) := by
        rw [List.count_pos_iff, hf]
        exact List.mem_map_of_mem f hb'
      simp only [List.map_cons, List.count_cons_self]
      omega
    · rcases List.mem_cons.mp hb with rfl | hb'
      · have h1 : 0 < (t.map f).count (f b) := by
          rw [List.count_pos_iff, ← hf]
          exact List.mem_map_of_mem f ha'
        simp only [List.map_cons, hf, List.count_cons_self]
        omega
      · have := ih ha' hb'
        simp only [List.map_cons, List.count_cons]
        omega

theorem nodup_map_ne {α β : Type} [DecidableEq β] {f : α → β} {l : List α}
    (h : (l.map f).Nodup) {a b : α} (ha : a ∈ l) (hb : b ∈ l) (hab : a ≠ b) :
    f a ≠ f b := by
  intro hf
  have h2 := two_mem_count f l a b ha hb hab hf
  have h1 := List.nodup_iff_count_le_one.mp h (f a)
  omega

theorem append_mid_inj {α : Type} (x : α) :
    ∀ (l1 l2 r1 r2 : List α), x ∉ l1 → x ∉ l2 →
      l1 ++ x :: r1 = l2 ++ x :: r2 → l1 = l2 ∧ r1 = r2 := by
  intro l1
  induction l1 with
  | nil =>
    intro l2 r1 r2 _ h2 he
    cases l2 with
    | nil => simpa using he
    | cons y t =>
      simp only [List.nil_append, List.cons_append, List.cons.injEq] at he
      exact absurd (he.1 ▸ List.mem_cons_self y t) h2
  | cons a t ih =>
    intro l2 r1 r2 h1 h2 he
    cases l2 with
    | nil =>
      simp only [List.cons_append, List.nil_append, List.cons.injEq] at he
      exact absurd (he.1 ▸ List.mem_cons_self a t) h1
    | cons b t2 =>
      simp only [List.cons_append, List.cons.injEq] at he
      obtain ⟨rfl, he2⟩ := he
      have h1' : x ∉ t := fun hx => h1 (List.mem_cons_of_mem a hx)
      have h2' : x ∉ t2 := fun hx => h2 (List.mem_cons_of_mem a hx)
      obtain ⟨rfl, hr⟩ := ih t2 r1 r2 h1' h2' he2
      exact ⟨rfl, hr⟩

theorem underscore_append_inj {s t a b : String}
    (hs : noU s) (ht : noU t) (h : s ++ "_" ++ a = t ++ "_" ++ b) :
    s = t ∧ a = b := by
  have hu : ("_" : String).data = ['_'] := rfl
  have hd : s.data ++ '_' :: a.data = t.data ++ '_' :: b.data := by
    have h2 := congrArg String.data h
    simpa [String.data_append, hu] using h2
  obtain ⟨h1, h2⟩ := append_mid_inj '_' _ _ _ _ hs ht hd
  exact ⟨String.ext h1, String.ext h2⟩

theorem noU_ne_suffixed {s a b : String} (hs : noU s) :
    s ≠ a ++ "_" ++ b := by
  intro h
  apply hs
  have hu : ("_" : String).data = ['_'] := rfl
  have hd := congrArg String.data h
  rw [hd]
  simp [String.data_append, hu]

theorem append_right_ne {s a b : String} (h : a ≠ b) : s ++ a ≠ s ++ b := by
  intro he
  apply h
  have hd := congrArg String.data he
  simp only [String.data_append] at hd
  exact String.ext (List.append_cancel_left hd)

theorem foldl_append_flatMap {α β : Type} (g : α → List β) (l : List α) :
    ∀ acc : List β,
      l.foldl (fun a x => a ++ g x) acc = acc ++ l.flatMap g := by
  induction l with
  | nil => intro acc; simp
  | cons x t ih =>
    intro acc
    simp only [List.foldl_cons, List.flatMap_cons, ih, List.append_assoc]

theorem append_left_ne {s a b : String} (h : a ≠ b) : a ++ s ≠ b ++ s := by
  intro he
  apply h
  have hd := congrArg String.data he
  simp only [String.data_append] at hd
  exact String.ext (List.append_cancel_right hd)

theorem append_right_cancel_str {s a b : String} (h : a ++ s = b ++ s) :
    a = b := by
  by_contra hne
  exact append_left_ne hne h

theorem beq_eq_beq {a b c d : String} (h : a = b ↔ c = d) :
    (a == b) = (c == d) := by
  by_cases h1 : a = b
  · rw [beq_iff_eq.mpr h1, beq_iff_eq.mpr (h.mp h1)]
  · rw [beq_eq_false_iff_ne.mpr h1, beq_eq_false_iff_ne.mpr (fun hc => h1 (h.mpr hc))]

/-! ## Lemmas about link deduplication -/

theorem dedupGo_subset (ls : List Link) :
    ∀ (seen : List String) (l : Link), l ∈ dedupGo seen ls → l ∈ ls := by
  induction ls with
  | nil =>
    intro seen l h
    simp [dedupGo] at h
  | cons x t ih =>
    intro seen l h
    simp only [dedupGo] at h
    by_cases hc : seen.contains (linkKey x) = true
    · rw [if_pos hc] at h
      exact List.mem_cons_of_mem x (ih seen l h)
    · rw [if_neg hc] at h
      rcases List.mem_cons.mp h with rfl | h'
      · exact List.mem_cons_self l t
      · exact List.mem_cons_of_mem x (ih _ l h')

theorem dedupGo_filter_of_seen (K : String) (ls : List Link) :
    ∀ seen : List String, K ∈ seen →
      (dedupGo seen ls).filter (fun l => linkKey l == K) = [] := by
  induction ls with
  | nil => intro seen _; simp [dedupGo]
  | cons x t ih =>
    intro seen hK
    simp only [dedupGo]
    by_cases hc : seen.contains (linkKey x) = true
    · rw [if_pos hc]
      exact ih seen hK
    · rw [if_neg hc]
      have hxK : ¬ linkKey x = K := by
        intro he
        apply hc
        simp [he, hK]
      rw [List.filter_cons, beq_eq_false_iff_ne.mpr hxK]
      simp only [Bool.false_eq_true, if_false]
      exact ih _ (List.mem_cons_of_mem _ hK)

theorem dedupGo_filter_length (K : String) (ls : List Link) :
    ∀ seen : List String, K ∉ seen →
      ((dedupGo seen ls).filter (fun l => linkKey l == K)).length =
        min 1 ((ls.filter (fun l => linkKey l == K)).length) := by
  induction ls with
  | nil => intro seen _; simp [dedupGo]
  | cons x t ih =>
    intro seen hK
    simp only [dedupGo]
    by_cases hc : seen.contains (linkKey x) = true
    · rw [if_pos hc]
      have hxK : ¬ linkKey x = K := by
        intro he
        rw [he] at hc
        simp at hc
        exact hK hc
      simp only [List.filter_cons, beq_eq_false_iff_ne.mpr hxK,
        Bool.false_eq_true, if_false]
      exact ih seen hK
    · rw [if_neg hc]
      by_cases hxK : linkKey x = K
      · have htail : (dedupGo (linkKey x :: seen) t).filter
            (fun l => linkKey l == K) = [] :=
          dedupGo_filter_of_seen K t _
            (by rw [hxK]; exact List.mem_cons_self K seen)
        simp only [List.filter_cons, beq_iff_eq.mpr hxK, if_true, htail]
        simp
      · simp only [List.filter_cons, beq_eq_false_iff_ne.mpr hxK,
          Bool.false_eq_true, if_false]
        have hKm : K ∉ linkKey x :: seen := by
          intro h
          rcases List.mem_cons.mp h with h' | h'
          · exact hxK h'.symm
          · exact hK h'
        exact ih _ hKm

/-! ## Shape lemmas for requirement controls -/

theorem buildRequirementControl_id (reqId : String) (req : FRRRequirement)
    (app label : String) (tm : List (String × String)) (ns : Bool) :
    (buildRequirementControl reqId req app label tm ns).id =
      controlIdOf reqId app ns := rfl

theorem buildRequirementControl_propsL (reqId : String) (req : FRRRequirement)
    (app label : String) (tm : List (String × String)) (ns : Bool) :
    (buildRequirementControl reqId req app label tm ns).propsL =
      [{ name := "label", value := label, ns := none },
       fProp "applicability" app] ++
      fkaProps req ++ affectsProps req ++
      (if req.varies_by_level.isSome then [] else flatKeywordProps req) ++
      dangerImpactProps req ++ notificationProps req := by
  unfold buildRequirementControl Control.propsL
  simp

theorem buildRequirementControl_partsL (reqId : String) (req : FRRRequirement)
    (app label : String) (tm : List (String × String)) (ns : Bool) :
    (buildRequirementControl reqId req app label tm ns).partsL =
      statementParts (controlIdOf reqId app ns) req ++
      guidanceParts (controlIdOf reqId app ns) req ++
      assessmentParts (controlIdOf reqId app ns) req := by
  unfold buildRequirementControl Control.partsL
  simp only []
  exact if_isEmpty_getD _

theorem buildRequirementControl_linksL (reqId : String) (req : FRRRequirement)
    (app label : String) (tm : List (String × String)) (ns : Bool) :
    (buildRequirementControl reqId req app label tm ns).linksL =
      deduplicateLinks (termLinks tm req.terms) := by
  unfold buildRequirementControl Control.linksL
  cases hL : termLinks tm req.terms with
  | nil => simp [hL, deduplicateLinks, dedupGo]
  | cons x t => simp [hL]

theorem mem_statementParts_name {cid : String} {req : FRRRequirement}
    {p : Part} (h : p ∈ statementParts cid req) : p.pname = "statement" := by
  unfold statementParts at h
  cases hv : req.varies_by_level with
  | some vbl =>
    simp only [hv] at h
    rcases List.mem_singleton.mp h with rfl
    rfl
  | none =>
    simp only [hv] at h
    cases hs : req.statement with
    | some s =>
      simp only [hs] at h
      by_cases he : (s == "") = true
      · rw [if_pos he] at h
        simp at h
      · rw [if_neg he] at h
        rcases List.mem_singleton.mp h with rfl
        rfl
    | none =>
      simp only [hs] at h
      simp at h

theorem mem_guidanceParts_name {cid : String} {req : FRRRequirement}
    {p : Part} (h : p ∈ guidanceParts cid req) : p.pname = "guidance" := by
  unfold guidanceParts at h
  cases hv : req.examples with
  | some l =>
    simp only [hv] at h
    by_cases he : l.isEmpty = true
    · rw [if_pos he] at h
      simp at h
    · rw [if_neg he] at h
      rcases List.mem_singleton.mp h with rfl
      rfl
  | none =>
    simp only [hv] at h
    simp at h

theorem mem_assessmentParts_name {cid : String} {req : FRRRequirement}
    {p : Part} (h : p ∈ assessmentParts cid req) : p.pname = "assessment" := by
  unfold assessmentParts at h
  by_cases he : (((match req.note with
      | some s => if s == "" then [] else [s]
      | none => []) ++ (match req.notes with | some l => l | none => [])) :
      List String).isEmpty
  · rw [if_pos he] at h
    simp at h
  · rw [if_neg he] at h
    rcases List.mem_singleton.mp h with rfl
    rfl

/-- Filtering a requirement control's parts down to the "statement" name
keeps exactly the statement parts. -/
theorem statement_parts_filter (cid : String) (req : FRRRequirement) :
    (statementParts cid req ++ guidanceParts cid req ++
      assessmentParts cid req).filter (fun p => p.pname == "statement") =
      statementParts cid req := by
  rw [List.filter_append, List.filter_append]
  have hs : (statementParts cid req).filter
      (fun p => p.pname == "statement") = statementParts cid req := by
    rw [List.filter_eq_self]
    intro p hp
    rw [beq_iff_eq]
    exact mem_statementParts_name hp
  have hg : (guidanceParts cid req).filter
      (fun p => p.pname == "statement") = [] := by
    rw [List.filter_eq_nil_iff]
    intro p hp
    rw [mem_guidanceParts_name hp]
    decide
  have ha : (assessmentParts cid req).filter
      (fun p => p.pname == "statement") = [] := by
    rw [List.filter_eq_nil_iff]
    intro p hp
    rw [mem_assessmentParts_name hp]
    decide
  rw [hs, hg, ha, List.append_nil, List.append_nil]

theorem mem_followUpItemParts {cid : String} {req : FRRRequirement}
    {p : Part} (h : p ∈ followUpItemParts cid req) :
    p.props = [] ∧ p.subparts = [] := by
  unfold followUpItemParts at h
  rcases List.mem_append.mp h with h' | h'
  · cases hf : req.following_information with
    | some l =>
      rw [hf] at h'
      rcases List.mem_map.mp h' with ⟨q, _, rfl⟩
      exact ⟨rfl, rfl⟩
    | none =>
      rw [hf] at h'
      simp at h'
  · cases hf : req.following_information_bullets with
    | some l =>
      rw [hf] at h'
      rcases List.mem_map.mp h' with ⟨q, _, rfl⟩
      exact ⟨rfl, rfl⟩
    | none =>
      rw [hf] at h'
      simp at h'

/-! ## Claim C3: statement exclusivity -/

/-- C3: a requirement with level-variant statements produces one parent
"statement" part with no prose whose children are one nested part per level
carrying that level's prose; a requirement with only a flat statement
produces one "statement" part carrying the flat prose whose children (the
follow-up items) have no per-level props — never both shapes in one
control. -/
theorem claim_C3_statement_exclusivity (reqId : String) (req : FRRRequirement)
    (app label : String) (tm : List (String × String)) (ns : Bool) :
    (∀ vbl, req.varies_by_level = some vbl →
      ∃ stmt : Part,
        ((buildRequirementControl reqId req app label tm ns).partsL.filter
          (fun p => p.pname == "statement")) = [stmt] ∧
        stmt.prose = none ∧
        stmt.subparts.map Part.prose = vbl.map (fun lv => some lv.2.statement) ∧
        stmt.subparts.map Part.pname = vbl.map (fun _ => "item")) ∧
    (∀ s, req.varies_by_level = none → req.statement = some s → s ≠ "" →
      ∃ stmt : Part,
        ((buildRequirementControl reqId req app label tm ns).partsL.filter
          (fun p => p.pname == "statement")) = [stmt] ∧
        stmt.prose = some s ∧
        ∀ ch ∈ stmt.subparts, ch.props = [] ∧ ch.subparts = []) := by
  constructor
  · intro vbl hv
    refine ⟨Part.mk (some (controlIdOf reqId app ns ++ "_stmt")) "statement"
      none none [] (levelStatementParts (controlIdOf reqId app ns) vbl),
      ?_, rfl, ?_, ?_⟩
    · rw [buildRequirementControl_partsL, statement_parts_filter]
      unfold statementParts
      simp only [hv]
    · simp only [Part.subparts, levelStatementParts, List.map_map]
      rfl
    · simp only [Part.subparts, levelStatementParts, List.map_map]
      rfl
  · intro s hv hs hne
    refine ⟨Part.mk (some (controlIdOf reqId app ns ++ "_stmt")) "statement"
      none (some s) [] (followUpItemParts (controlIdOf reqId app ns) req),
      ?_, rfl, ?_⟩
    · rw [buildRequirementControl_partsL, statement_parts_filter]
      unfold statementParts
      simp only [hv, hs]
      rw [if_neg (fun h => hne (beq_iff_eq.mp h))]
    · intro ch hch
      exact mem_followUpItemParts hch

theorem claim_C3_witness :
    (∃ stmt : Part,
      ((buildRequirementControl "R-1" c3VariesReq "a" "L" [] false).partsL.filter
        (fun p => p.pname == "statement")) = [stmt] ∧
      stmt.prose = none ∧
      stmt.subparts.map Part.prose = c3Vbl.map (fun lv => some lv.2.statement) ∧
      stmt.subparts.map Part.pname = c3Vbl.map (fun _ => "item")) ∧
    (∃ stmt : Part,
      ((buildRequirementControl "R-2" c3FlatReq "a" "L" [] false).partsL.filter
        (fun p => p.pname == "statement")) = [stmt] ∧
      stmt.prose = some "flat statement" ∧
      ∀ ch ∈ stmt.subparts, ch.props = [] ∧ ch.subparts = []) :=
  ⟨(claim_C3_statement_exclusivity "R-1" c3VariesReq "a" "L" [] false).1 c3Vbl rfl,
   (claim_C3_statement_exclusivity "R-2" c3FlatReq "a" "L" [] false).2
     "flat statement" rfl rfl (by decide)⟩

/-! ## Claim C10: both statement shapes present at once -/

theorem mem_fkaProps_name {req : FRRRequirement} {p : Property}
    (h : p ∈ fkaProps req) : p.name = "fka" := by
  unfold fkaProps at h
  rcases List.mem_append.mp h with h' | h'
  · cases hf : req.fka with
    | some s =>
      simp only [hf] at h'
      by_cases he : (s == "") = true
      · rw [if_pos he] at h'
        simp at h'
      · rw [if_neg he] at h'
        rcases List.mem_singleton.mp h' with rfl
        rfl
    | none =>
      simp only [hf] at h'
      simp at h'
  · cases hf : req.fkas with
    | some l =>
      simp only [hf] at h'
      rcases List.mem_map.mp h' with ⟨q, _, rfl⟩
      rfl
    | none =>
      simp only [hf] at h'
      simp at h'

theorem mem_affectsProps_name {req : FRRRequirement} {p : Property}
    (h : p ∈ affectsProps req) : p.name = "affects" := by
  unfold affectsProps at h
  cases hf : req.affects with
  | some l =>
    simp only [hf] at h
    rcases List.mem_map.mp h with ⟨q, _, rfl⟩
    rfl
  | none =>
    simp only [hf] at h
    simp at h

theorem mem_dangerImpactProps_name {req : FRRRequirement} {p : Property}
    (h : p ∈ dangerImpactProps req) :
    p.name = "danger" ∨ p.name = "impact" := by
  unfold dangerImpactProps at h
  rcases List.mem_append.mp h with h' | h'
  · cases hf : req.danger with
    | some s =>
      simp only [hf] at h'
      by_cases he : (s == "") = true
      · rw [if_pos he] at h'
        simp at h'
      · rw [if_neg he] at h'
        rcases List.mem_singleton.mp h' with rfl
        exact Or.inl rfl
    | none =>
      simp only [hf] at h'
      simp at h'
  · cases hf : req.impact with
    | some iv =>
      cases iv with
      | text s =>
        simp only [hf] at h'
        by_cases he : (s == "") = true
        · rw [if_pos he] at h'
          simp at h'
        · rw [if_neg he] at h'
          rcases List.mem_singleton.mp h' with rfl
          exact Or.inr rfl
      | flags m =>
        simp only [hf] at h'
        rcases List.mem_singleton.mp h' with rfl
        exact Or.inr rfl
    | none =>
      simp only [hf] at h'
      simp at h'

theorem head_notification (a b : String) :
    (("notification-" ++ a) ++ b).data.head? = some 'n' := by
  have h1 : ("notification-" : String).data = 'n' :: "otification-".data := rfl
  simp [String.data_append, h1]

theorem mem_notificationProps_head {req : FRRRequirement} {p : Property}
    (h : p ∈ notificationProps req) : p.name.data.head? = some 'n' := by
  unfold notificationProps at h
  cases hn : req.notification with
  | none =>
    simp only [hn] at h
    simp at h
  | some l =>
    simp only [hn] at h
    rcases List.mem_flatMap.mp h with ⟨q, _, hq⟩
    simp only [List.mem_cons, List.mem_singleton] at hq
    rcases hq with rfl | rfl | hq'
    · exact head_notification _ _
    · exact head_notification _ _
    · rcases hq' with rfl | hq''
      · exact head_notification _ _
      · simp at hq''

/-- The `name` of a string is distinct whenever the first characters
disagree. -/
theorem ne_of_head {s t : String} (h : s.data.head? ≠ t.data.head?) :
    s ≠ t := fun he => h (by rw [he])

/-- C10: for a requirement carrying BOTH a flat statement and level-variant
statements, the source validator reports no violation (its check fires only
when both are absent), and the built control keeps only the level-variant
shape: the statement part has no top-level prose, its children are the
per-level parts, and no flat-case keyword/timeframe property is attached. -/
theorem claim_C10_both_shapes_silent (rid : String) (req : FRRRequirement)
    (app label : String) (tm : List (String × String)) (ns : Bool)
    (s : String) (vbl : List (String × LevelVariant))
    (_hs : req.statement = some s) (hv : req.varies_by_level = some vbl) :
    validateSource (soloReqDoc rid req) = [] ∧
    (∃ stmt : Part,
      ((buildRequirementControl rid req app label tm ns).partsL.filter
        (fun p => p.pname == "statement")) = [stmt] ∧
      stmt.prose = none ∧
      stmt.subparts.map Part.prose = vbl.map (fun lv => some lv.2.statement)) ∧
    (∀ p ∈ (buildRequirementControl rid req app label tm ns).propsL,
      p.name ≠ "keyword" ∧ p.name ≠ "timeframe-type" ∧
      p.name ≠ "timeframe-num") := by
  refine ⟨?_, ?_, ?_⟩
  · unfold validateSource soloReqDoc allReqOccs processReqOccs
    simp [hv]
  · refine ⟨Part.mk (some (controlIdOf rid app ns ++ "_stmt")) "statement"
      none none [] (levelStatementParts (controlIdOf rid app ns) vbl),
      ?_, rfl, ?_⟩
    · rw [buildRequirementControl_partsL, statement_parts_filter]
      unfold statementParts
      simp only [hv]
    · simp only [Part.subparts, levelStatementParts, List.map_map]
      rfl
  · intro p hp
    rw [buildRequirementControl_propsL] at hp
    rw [hv] at hp
    simp only [Option.isSome_some, if_true, List.append_nil] at hp
    rcases List.mem_append.mp hp with hp | hnp
    · rcases List.mem_append.mp hp with hp | hdi
      · rcases List.mem_append.mp hp with hp | haf
        · rcases List.mem_append.mp hp with hlb | hfk
          · simp only [List.mem_cons, List.mem_singleton] at hlb
            rcases hlb with rfl | rfl | h0
            · exact ⟨(by decide : ("label" : String) ≠ "keyword"),
                (by decide : ("label" : String) ≠ "timeframe-type"),
                (by decide : ("label" : String) ≠ "timeframe-num")⟩
            · exact ⟨(by decide : ("applicability" : String) ≠ "keyword"),
                (by decide : ("applicability" : String) ≠ "timeframe-type"),
                (by decide : ("applicability" : String) ≠ "timeframe-num")⟩
            · simp at h0
          · rw [mem_fkaProps_name hfk]
            exact ⟨by decide, by decide, by decide⟩
        · rw [mem_affectsProps_name haf]
          exact ⟨by decide, by decide, by decide⟩
      · rcases mem_dangerImpactProps_name hdi with hn | hn <;> rw [hn]
        · exact ⟨by decide, by decide, by decide⟩
        · exact ⟨by decide, by decide, by decide⟩
    · have hh := mem_notificationProps_head hnp
      refine ⟨ne_of_head ?_, ne_of_head ?_, ne_of_head ?_⟩ <;>
        rw [hh] <;> decide

/-! ## Claim C2: collision disambiguation -/

theorem contains_eq_true_iff {l : List String} {k : String} :
    l.contains k = true ↔ k ∈ l := by
  simp

theorem mem_findDuplicateReqIds {p : FRRProcess} {k : String} :
    k ∈ findDuplicateReqIds p ↔ 2 ≤ (processReqKeys p).count k := by
  unfold findDuplicateReqIds
  rw [List.mem_dedup, List.mem_filter]
  constructor
  · rintro ⟨_, h⟩
    exact of_decide_eq_true h
  · intro h
    refine ⟨?_, decide_eq_true h⟩
    have : 0 < (processReqKeys p).count k := by omega
    exact List.count_pos_iff.mp this

theorem buildProcessGroup_controlsL (pk : String) (p : FRRProcess)
    (tm : List (String × String)) :
    (buildProcessGroup pk p tm).controlsL = (processReqOccs p).map (fun o =>
      buildRequirementControl o.2.2.1 o.2.2.2 o.1 o.2.1 tm
        ((findDuplicateReqIds p).contains o.2.2.1)) := by
  unfold buildProcessGroup Group.controlsL
  simp only [Group.controls]
  exact if_isEmpty_getD _

/-- The control ids produced for a process group follow the
duplicate-detection id rule. -/
theorem processGroup_control_ids (pk : String) (p : FRRProcess)
    (tm : List (String × String)) :
    (buildProcessGroup pk p tm).controlsL.map Control.id =
      processControlIds p := by
  unfold processControlIds
  rw [buildProcessGroup_controlsL, List.map_map]
  apply List.map_congr_left
  intro o _
  simp only [Function.comp_apply, buildRequirementControl_id]
  by_cases h2 : 2 ≤ (processReqKeys p).count o.2.2.1
  · have hct : (findDuplicateReqIds p).contains o.2.2.1 = true :=
      contains_eq_true_iff.mpr (mem_findDuplicateReqIds.mpr h2)
    rw [hct, if_pos h2]
    rfl
  · have hct : (findDuplicateReqIds p).contains o.2.2.1 = false := by
      rw [← Bool.not_eq_true]
      intro hc
      exact h2 (mem_findDuplicateReqIds.mp (contains_eq_true_iff.mp hc))
    rw [hct, if_neg h2]
    rfl

/-- C2 counterexample: for the key "R-1" occurring under partitions "A" and
"B", the produced ids are "r-1_A" and "r-1_B" — the applicability tag is
embedded verbatim, not lowercased as the claim states ("r-1_a"). -/
theorem claim_C2_counterexample :
    ((buildProcessGroup "proc" c2Proc []).controlsL.map Control.id =
      ["r-1_A", "r-2", "r-1_B"]) ∧
    "r-1_A" ≠ strLower "R-1" ++ "_" ++ strLower "A" := by
  constructor
  · decide
  · decide

/-- C2 (amended): for a requirement key occurring under two different
applicability partitions of one process, the two resulting control ids are
the lowercased key followed by an underscore and the respective
applicability tag VERBATIM (the code does not lowercase the suffix), and
the two ids differ; a key occurring exactly once yields the bare lowercased
key with no suffix.  The first conjunct characterises every produced
control id by this rule. -/
theorem claim_C2_amended (pk : String) (p : FRRProcess)
    (tm : List (String × String)) :
    ((buildProcessGroup pk p tm).controlsL.map Control.id =
      (processReqOccs p).map (fun o =>
        if 2 ≤ (processReqKeys p).count o.2.2.1
        then strLower o.2.2.1 ++ "_" ++ o.1
        else strLower o.2.2.1)) ∧
    (∀ a1 l1 r1 a2 l2 r2 k, (a1, l1, k, r1) ∈ processReqOccs p →
      (a2, l2, k, r2) ∈ processReqOccs p → a1 ≠ a2 →
      (buildRequirementControl k r1 a1 l1 tm
        ((findDuplicateReqIds p).contains k)).id = strLower k ++ "_" ++ a1 ∧
      (buildRequirementControl k r2 a2 l2 tm
        ((findDuplicateReqIds p).contains k)).id = strLower k ++ "_" ++ a2 ∧
      strLower k ++ "_" ++ a1 ≠ strLower k ++ "_" ++ a2) ∧
    (∀ a lb r k, (a, lb, k, r) ∈ processReqOccs p →
      (processReqKeys p).count k = 1 →
      (buildRequirementControl k r a lb tm
        ((findDuplicateReqIds p).contains k)).id = strLower k) := by
  refine ⟨processGroup_control_ids pk p tm, ?_, ?_⟩
  · intro a1 l1 r1 a2 l2 r2 k h1 h2 hne
    have hcount : 2 ≤ (processReqKeys p).count k := by
      have hne' : (a1, l1, k, r1) ≠ (a2, l2, k, r2) := by
        intro he
        exact hne (congrArg (fun q => q.1) he)
      exact two_mem_count
        (fun o : String × String × String × FRRRequirement => o.2.2.1)
        (processReqOccs p) _ _ h1 h2 hne' rfl
    have hct : (findDuplicateReqIds p).contains k = true :=
      contains_eq_true_iff.mpr (mem_findDuplicateReqIds.mpr hcount)
    rw [buildRequirementControl_id, buildRequirementControl_id, hct]
    exact ⟨rfl, rfl, append_right_ne hne⟩
  · intro a lb r k h1 hcount
    have hct : (findDuplicateReqIds p).contains k = false := by
      rw [← Bool.not_eq_true]
      intro hc
      have := mem_findDuplicateReqIds.mp (contains_eq_true_iff.mp hc)
      omega
    rw [buildRequirementControl_id, hct]
    rfl

theorem claim_C2_witness :
    ((buildRequirementControl "R-1" { statement := some "s" } "A" "L" []
        ((findDuplicateReqIds c2Proc).contains "R-1")).id =
      strLower "R-1" ++ "_" ++ "A" ∧
     (buildRequirementControl "R-1" { statement := some "s" } "B" "L" []
        ((findDuplicateReqIds c2Proc).contains "R-1")).id =
      strLower "R-1" ++ "_" ++ "B" ∧
     strLower "R-1" ++ "_" ++ "A" ≠ strLower "R-1" ++ "_" ++ "B") ∧
    (buildRequirementControl "R-2" { statement := some "s" } "A" "L" []
        ((findDuplicateReqIds c2Proc).contains "R-2")).id = strLower "R-2" :=
  ⟨(claim_C2_amended "proc" c2Proc []).2.1 "A" "L" { statement := some "s" }
      "B" "L" { statement := some "s" } "R-1"
      (by decide) (by decide) (by decide),
   (claim_C2_amended "proc" c2Proc []).2.2 "A" "L" { statement := some "s" }
      "R-2" (by decide) (by decide)⟩

/-! ## Claim C4: the mapping skip rule -/

theorem foldl_via_flatMap {α β : Type} (g : α → List β)
    (f : List β → α → List β) (hf : ∀ acc x, f acc x = acc ++ g x)
    (l : List α) : ∀ acc, l.foldl f acc = acc ++ l.flatMap g := by
  induction l with
  | nil => intro acc; simp
  | cons x t ih =>
    intro acc
    rw [List.foldl_cons, hf, ih, List.flatMap_cons, List.append_assoc]

/-- C4: an indicator with an absent or empty control-reference list
contributes no map entry; an indicator declaring N ≥ 1 external control
references contributes exactly one entry with relationship "superset-of",
a single source reference whose id-ref is the lowercased indicator key, and
one target reference per declared control identifier, passed through
unchanged. -/
theorem claim_C4_mapping_skip_rule (frmr : FRMRData) (now : String) :
    mapsOf (buildMappingCollection frmr now) =
      frmr.KSI.flatMap (fun dm => dm.2.indicators.flatMap (fun ind =>
        match ind.2.controls with
        | none => []
        | some cs =>
          if cs.isEmpty then []
          else [{ uuid := generateUUID .mapping_entry ind.1,
                  relationship := "superset-of",
                  sources := [{ type := "control", id_ref := strLower ind.1 }],
                  targets := cs.map (fun c =>
                    { type := "control", id_ref := c }) }])) := by
  have hinner : ∀ (acc : List MapEntry) (ind : String × KSIIndicator),
      (match ind.2.controls with
       | none => acc
       | some cs =>
         if cs.isEmpty then acc
         else acc ++ [{ uuid := generateUUID .mapping_entry ind.1,
                        relationship := "superset-of",
                        sources := [{ type := "control",
                                      id_ref := strLower ind.1 }],
                        targets := cs.map (fun c =>
                          { type := "control", id_ref := c }) }]) =
      acc ++ (match ind.2.controls with
       | none => []
       | some cs =>
         if cs.isEmpty then []
         else [{ uuid := generateUUID .mapping_entry ind.1,
                 relationship := "superset-of",
                 sources := [{ type := "control", id_ref := strLower ind.1 }],
                 targets := cs.map (fun c =>
                   { type := "control", id_ref := c }) }]) := by
    intro acc ind
    cases h : ind.2.controls with
    | none => simp
    | some cs =>
      by_cases he : cs.isEmpty = true
      · simp [he]
      · simp [he]
  unfold buildMappingCollection mapsOf
  simp only
  rw [foldl_via_flatMap _ _
    (fun acc dm => foldl_via_flatMap _ _ hinner dm.2.indicators acc)
    frmr.KSI []]
  rw [List.nil_append]

/-! ## Claim C6: link deduplication -/

theorem mem_termLinks_rel {tm : List (String × String)}
    {terms : Option (List String)} {l : Link}
    (h : l ∈ termLinks tm terms) : l.rel = some "term" := by
  unfold termLinks at h
  cases ht : terms with
  | none =>
    simp only [ht] at h
    simp at h
  | some ts =>
    simp only [ht] at h
    rcases List.mem_filterMap.mp h with ⟨t, _, hmap⟩
    cases hu : mapGet tm (strLower t) with
    | none =>
      rw [hu] at hmap
      cases hmap
    | some v =>
      rw [hu] at hmap
      simp only [Option.map_some', Option.some.injEq] at hmap
      rw [← hmap]

theorem termLink_mem {tm : List (String × String)} {ts : List String}
    {t u : String} (ht : t ∈ ts) (hl : mapGet tm (strLower t) = some u) :
    ({ href := "#" ++ u, rel := some "term", text := some t } : Link) ∈
      termLinks tm (some ts) := by
  unfold termLinks
  exact List.mem_filterMap.mpr ⟨t, ht, by rw [hl]; rfl⟩

theorem buildIndicatorControl_linksL (iid : String) (ind : KSIIndicator)
    (tm : List (String × String)) :
    (buildIndicatorControl iid ind tm).linksL =
      deduplicateLinks (nistControlLinks ind ++ termLinks tm ind.terms) := by
  unfold buildIndicatorControl Control.linksL
  cases hL : nistControlLinks ind ++ termLinks tm ind.terms with
  | nil => simp [hL, deduplicateLinks, dedupGo]
  | cons x t => simp [hL]

theorem mem_nistControlLinks_rel {ind : KSIIndicator} {l : Link}
    (h : l ∈ nistControlLinks ind) : l.rel = some "related" := by
  unfold nistControlLinks at h
  cases hc : ind.controls with
  | some cs =>
    simp only [hc] at h
    rcases List.mem_map.mp h with ⟨c, _, rfl⟩
    rfl
  | none =>
    simp only [hc] at h
    simp at h

theorem ne_of_revHead {s t : String}
    (h : s.data.reverse.head? ≠ t.data.reverse.head?) : s ≠ t :=
  fun he => h (by rw [he])

theorem revHead_related (a : String) :
    ((a ++ "|" ++ "related").data.reverse).head? = some 'd' := by
  rw [String.data_append, List.reverse_append]
  rfl

theorem revHead_term (a : String) :
    ((a ++ "|" ++ "term").data.reverse).head? = some 'm' := by
  rw [String.data_append, List.reverse_append]
  rfl

/-- A "related" dedup key never coincides with a "term" dedup key: the two
strings end in different characters. -/
theorem nist_key_ne_term_key (a b : String) :
    a ++ "|" ++ "related" ≠ b ++ "|" ++ "term" :=
  ne_of_revHead (by rw [revHead_related a, revHead_term b]; decide)

/-- On a link with the "term" relation, the filter test for a given term
href coincides with the dedup-key test. -/
theorem termLink_pointwise {u : String} {l : Link}
    (hrel : l.rel = some "term") :
    (l.href == "#" ++ u && l.rel == some "term") =
      (linkKey l == ("#" ++ u) ++ "|" ++ "term") := by
  simp only [linkKey, hrel, Option.getD_some, beq_self_eq_true, Bool.and_true]
  refine beq_eq_beq ⟨fun h => by rw [h], fun h => ?_⟩
  exact append_right_cancel_str (append_right_cancel_str h)

/-- On a link with the "related" relation, both the filter test for a term
href and the corresponding dedup-key test are false. -/
theorem nistLink_pointwise {u : String} {l : Link}
    (hrel : l.rel = some "related") :
    (l.href == "#" ++ u && l.rel == some "term") =
      (linkKey l == ("#" ++ u) ++ "|" ++ "term") := by
  have h1 : (l.rel == some "term") = false := by
    rw [hrel]
    decide
  rw [h1, Bool.and_false]
  have h2 : linkKey l ≠ ("#" ++ u) ++ "|" ++ "term" := by
    unfold linkKey
    rw [hrel]
    exact nist_key_ne_term_key l.href ("#" ++ u)
  rw [beq_eq_false_iff_ne.mpr h2]

/-- If a filter test agrees with the dedup-key test for key `K` on every
link of the list, and some link of the list has key `K`, then the
deduplicated list has exactly one link passing the test. -/
theorem dedup_filter_key_count (L : List Link) (P : Link → Bool) (K : String)
    (hpt : ∀ l ∈ L, P l = (linkKey l == K))
    (hex : ∃ l ∈ L, linkKey l = K) :
    ((deduplicateLinks L).filter P).length = 1 := by
  have hsub : ∀ l ∈ deduplicateLinks L, P l = (linkKey l == K) :=
    fun l hl => hpt l (dedupGo_subset _ [] l hl)
  rw [List.filter_congr hsub]
  unfold deduplicateLinks
  rw [dedupGo_filter_length K L [] (by simp)]
  rcases hex with ⟨l0, hl0, hk0⟩
  have hpl : (linkKey l0 == K) = true := by
    rw [hk0]
    exact beq_self_eq_true K
  have hmem : l0 ∈ L.filter (fun l => linkKey l == K) :=
    List.mem_filter.mpr ⟨hl0, hpl⟩
  have hpos : 0 < (L.filter (fun l => linkKey l == K)).length := by
    apply List.length_pos.mpr
    intro hnil
    rw [hnil] at hmem
    simp at hmem
  exact Nat.min_eq_left hpos

/-- C6: two glossary-term references that resolve to the same glossary id
produce exactly one link with that href and the "term" relation, on
requirement controls and on indicator controls alike — links are
deduplicated by href and relation before attaching. -/
theorem claim_C6_link_dedup (tm : List (String × String))
    (ts : List String) (t1 t2 u : String)
    (ht1 : t1 ∈ ts) (_ht2 : t2 ∈ ts) (_hne : t1 ≠ t2)
    (hl1 : mapGet tm (strLower t1) = some u)
    (_hl2 : mapGet tm (strLower t2) = some u) :
    (∀ (reqId : String) (req : FRRRequirement) (app label : String)
      (ns : Bool), req.terms = some ts →
      (((buildRequirementControl reqId req app label tm ns).linksL).filter
        (fun l => l.href == "#" ++ u && l.rel == some "term")).length = 1) ∧
    (∀ (iid : String) (ind : KSIIndicator), ind.terms = some ts →
      (((buildIndicatorControl iid ind tm).linksL).filter
        (fun l => l.href == "#" ++ u && l.rel == some "term")).length = 1) := by
  constructor
  · intro reqId req app label ns hts
    rw [buildRequirementControl_linksL, hts]
    refine dedup_filter_key_count _ _ (("#" ++ u) ++ "|" ++ "term") ?_ ?_
    · intro l hl
      exact termLink_pointwise (mem_termLinks_rel hl)
    · exact ⟨_, termLink_mem ht1 hl1, rfl⟩
  · intro iid ind hts
    rw [buildIndicatorControl_linksL, hts]
    refine dedup_filter_key_count _ _ (("#" ++ u) ++ "|" ++ "term") ?_ ?_
    · intro l hl
      rcases List.mem_append.mp hl with hn | ht
      · exact nistLink_pointwise (mem_nistControlLinks_rel hn)
      · exact termLink_pointwise (mem_termLinks_rel ht)
    · exact ⟨_, List.mem_append.mpr (Or.inr (termLink_mem ht1 hl1)), rfl⟩

theorem claim_C6_witness :
    (((buildRequirementControl "R-1" c6Req "a" "L" c6Map false).linksL).filter
      (fun l => l.href == "#" ++ "u-1" && l.rel == some "term")).length = 1 ∧
    (((buildIndicatorControl "KSI-1" c6Ind c6Map).linksL).filter
      (fun l => l.href == "#" ++ "u-1" && l.rel == some "term")).length = 1 :=
  ⟨(claim_C6_link_dedup c6Map ["ET", "Example Term"] "ET" "Example Term" "u-1"
      (by decide) (by decide) (by decide) (by decide) (by decide)).1
      "R-1" c6Req "a" "L" false rfl,
   (claim_C6_link_dedup c6Map ["ET", "Example Term"] "ET" "Example Term" "u-1"
      (by decide) (by decide) (by decide) (by decide) (by decide)).2
      "KSI-1" c6Ind rfl⟩

/-! ## Claim C7: term-link referential integrity -/

theorem alts_fold_mem (uuid : String) (alts : List String) :
    ∀ (m : List (String × String)) (pair : String × String),
      pair ∈ alts.foldl (fun m alt => (strLower alt, uuid) :: m) m →
      pair.2 = uuid ∨ pair ∈ m := by
  induction alts with
  | nil =>
    intro m pair h
    exact Or.inr h
  | cons a t ih =>
    intro m pair h
    rw [List.foldl_cons] at h
    rcases ih _ pair h with h' | h'
    · exact Or.inl h'
    · rcases List.mem_cons.mp h' with rfl | h''
      · exact Or.inl rfl
      · exact Or.inr h''

theorem entry_fold_mem (entries : List (String × FRDTermEntry)) :
    ∀ (m : List (String × String)) (pair : String × String),
      pair ∈ entries.foldl (fun m te =>
        let uuid := generateUUID .frd_term te.1
        let m := (strLower te.2.term, uuid) :: m
        match te.2.alts with
        | some alts => alts.foldl (fun m alt => (strLower alt, uuid) :: m) m
        | none => m) m →
      (∃ te ∈ entries, pair.2 = generateUUID .frd_term te.1) ∨ pair ∈ m := by
  induction entries with
  | nil =>
    intro m pair h
    exact Or.inr h
  | cons te rest ih =>
    intro m pair h
    rw [List.foldl_cons] at h
    rcases ih _ pair h with ⟨te', hte', hu⟩ | h'
    · exact Or.inl ⟨te', List.mem_cons_of_mem te hte', hu⟩
    · simp only at h'
      revert h'
      cases halts : te.2.alts with
      | some alts =>
        intro h'
        rcases alts_fold_mem _ alts _ pair h' with h'' | h''
        · exact Or.inl ⟨te, List.mem_cons_self te rest, h''⟩
        · rcases List.mem_cons.mp h'' with rfl | h3
          · exact Or.inl ⟨te, List.mem_cons_self te rest, rfl⟩
          · exact Or.inr h3
      | none =>
        intro h'
        rcases List.mem_cons.mp h' with rfl | h3
        · exact Or.inl ⟨te, List.mem_cons_self te rest, rfl⟩
        · exact Or.inr h3

theorem frd_fold_mem (frdData : List (String × List (String × FRDTermEntry))) :
    ∀ (m : List (String × String)) (pair : String × String),
      pair ∈ frdData.foldl (fun m ap =>
        ap.2.foldl (fun m te =>
          let uuid := generateUUID .frd_term te.1
          let m := (strLower te.2.term, uuid) :: m
          match te.2.alts with
          | some alts => alts.foldl (fun m alt => (strLower alt, uuid) :: m) m
          | none => m) m) m →
      (∃ te ∈ frdOccs frdData, pair.2 = generateUUID .frd_term te.1) ∨
        pair ∈ m := by
  induction frdData with
  | nil =>
    intro m pair h
    exact Or.inr h
  | cons ap rest ih =>
    intro m pair h
    rw [List.foldl_cons] at h
    rcases ih _ pair h with ⟨te, hte, hu⟩ | h'
    · refine Or.inl ⟨te, ?_, hu⟩
      unfold frdOccs
      rw [List.flatMap_cons]
      exact List.mem_append.mpr (Or.inr hte)
    · rcases entry_fold_mem ap.2 m pair h' with ⟨te, hte, hu⟩ | h''
      · refine Or.inl ⟨te, ?_, hu⟩
        unfold frdOccs
        rw [List.flatMap_cons]
        exact List.mem_append.mpr (Or.inl hte)
      · exact Or.inr h''

/-- Every value stored in the term index is the deterministic resource id of
some glossary occurrence. -/
theorem termMap_value (frdData : List (String × List (String × FRDTermEntry)))
    {k u : String} (h : mapGet (buildTermUUIDMap frdData) k = some u) :
    ∃ te ∈ frdOccs frdData, u = generateUUID .frd_term te.1 := by
  unfold mapGet at h
  cases hf : (buildTermUUIDMap frdData).find? (fun p => p.1 == k) with
  | none =>
    rw [hf] at h
    cases h
  | some pr =>
    rw [hf] at h
    simp only [Option.map_some', Option.some.injEq] at h
    have hmem := List.mem_of_find?_eq_some hf
    unfold buildTermUUIDMap at hmem
    rcases frd_fold_mem frdData [] pr hmem with ⟨te, hte, hu⟩ | h0
    · exact ⟨te, hte, by rw [← h, hu]⟩
    · simp at h0

theorem mem_termLinks_shape {tm : List (String × String)}
    {terms : Option (List String)} {l : Link} (h : l ∈ termLinks tm terms) :
    ∃ t u, mapGet tm (strLower t) = some u ∧
      l = { href := "#" ++ u, rel := some "term", text := some t } := by
  unfold termLinks at h
  cases ht : terms with
  | none =>
    simp only [ht] at h
    simp at h
  | some ts =>
    simp only [ht] at h
    rcases List.mem_filterMap.mp h with ⟨t, _, hmap⟩
    cases hu : mapGet tm (strLower t) with
    | none =>
      rw [hu] at hmap
      cases hmap
    | some v =>
      rw [hu] at hmap
      simp only [Option.map_some', Option.some.injEq] at hmap
      exact ⟨t, v, hu, hmap.symm⟩

theorem flatMap_map {α β γ : Type} (f : α → β) (g : β → List γ)
    (l : List α) : (l.map f).flatMap g = l.flatMap (fun a => g (f a)) := by
  induction l with
  | nil => rfl
  | cons x t ih => simp [List.flatMap_cons, ih]

theorem buildKSIDomainGroup_controlsL (d : KSIDomain)
    (tm : List (String × String)) :
    (buildKSIDomainGroup d tm).controlsL =
      d.indicators.map (fun ind => buildIndicatorControl ind.1 ind.2 tm) := by
  unfold buildKSIDomainGroup Group.controlsL
  simp only [Group.controls]
  exact if_isEmpty_getD _

theorem allCatalogControls_buildCatalog (frmr : FRMRData) (now : String) :
    allCatalogControls (buildCatalog frmr now).catalog =
      frmr.FRR.flatMap (fun pr =>
        (buildProcessGroup pr.1 pr.2
          (buildTermUUIDMap frmr.FRD.data)).controlsL) ++
      frmr.KSI.flatMap (fun dm =>
        (buildKSIDomainGroup dm.2
          (buildTermUUIDMap frmr.FRD.data)).controlsL) := by
  unfold buildCatalog allCatalogControls
  simp only [List.flatMap_append, flatMap_map, List.flatMap_cons,
    List.flatMap_nil, List.append_nil]
  have h1 : ∀ pr : String × FRRProcess,
      (buildProcessGroup pr.1 pr.2
        (buildTermUUIDMap frmr.FRD.data)).subgroupsL = [] := by
    intro pr
    rfl
  have h2 : (Group.mk (some "key-security-indicators")
      "Key Security Indicators" none none none
      (some (frmr.KSI.map (fun dm => buildKSIDomainGroup dm.2
        (buildTermUUIDMap frmr.FRD.data))))).controlsL = [] := rfl
  have h3 : (Group.mk (some "key-security-indicators")
      "Key Security Indicators" none none none
      (some (frmr.KSI.map (fun dm => buildKSIDomainGroup dm.2
        (buildTermUUIDMap frmr.FRD.data))))).subgroupsL =
      frmr.KSI.map (fun dm => buildKSIDomainGroup dm.2
        (buildTermUUIDMap frmr.FRD.data)) := rfl
  rw [h2, h3]
  have h4 : frmr.FRR.flatMap (fun pr =>
      (buildProcessGroup pr.1 pr.2
        (buildTermUUIDMap frmr.FRD.data)).subgroupsL) = [] := by
    rw [List.flatMap_eq_nil_iff.mpr]
    intro pr _
    exact h1 pr
  rw [h4]
  simp only [List.nil_append, List.append_nil, List.flatMap_nil]
  rw [flatMap_map]

/-- C7: every "term"-relation link on any control of the built catalog
points (via a "#" fragment href) at the uuid of a back-matter glossary
resource of the same catalog, carries the original term text, and arises
from a term reference that resolves in the term index — unresolved
references yield no link. -/
theorem claim_C7_term_link_integrity (frmr : FRMRData) (now : String)
    (c : Control) (l : Link)
    (hc : c ∈ allCatalogControls (buildCatalog frmr now).catalog)
    (hl : l ∈ c.linksL) (hrel : l.rel = some "term") :
    (∃ r ∈ (buildCatalog frmr now).catalog.back_matter.resources,
      l.href = "#" ++ r.uuid) ∧
    (∃ t u, l.text = some t ∧
      mapGet (buildTermUUIDMap frmr.FRD.data) (strLower t) = some u ∧
      l.href = "#" ++ u) := by
  rw [allCatalogControls_buildCatalog] at hc
  have key : ∃ t u,
      mapGet (buildTermUUIDMap frmr.FRD.data) (strLower t) = some u ∧
      l = { href := "#" ++ u, rel := some "term", text := some t } := by
    rcases List.mem_append.mp hc with hc' | hc'
    · rcases List.mem_flatMap.mp hc' with ⟨pr, _, hcp⟩
      rw [buildProcessGroup_controlsL] at hcp
      rcases List.mem_map.mp hcp with ⟨o, _, rfl⟩
      rw [buildRequirementControl_linksL] at hl
      exact mem_termLinks_shape (dedupGo_subset _ [] l hl)
    · rcases List.mem_flatMap.mp hc' with ⟨dm, _, hcp⟩
      rw [buildKSIDomainGroup_controlsL] at hcp
      rcases List.mem_map.mp hcp with ⟨ind, _, rfl⟩
      rw [buildIndicatorControl_linksL] at hl
      have hl' := dedupGo_subset _ [] l hl
      rcases List.mem_append.mp hl' with hn | ht
      · rw [mem_nistControlLinks_rel hn] at hrel
        exact absurd hrel (by decide)
      · exact mem_termLinks_shape ht
  rcases key with ⟨t, u, hu, rfl⟩
  constructor
  · rcases termMap_value frmr.FRD.data hu with ⟨te, hte, huu⟩
    have hres : ∃ r ∈ (buildBackMatter frmr.FRD.data).resources,
        r.uuid = generateUUID .frd_term te.1 :=
      ⟨_, List.mem_map_of_mem _ hte, rfl⟩
    rcases hres with ⟨r, hr, hru⟩
    exact ⟨r, hr, by rw [hru, ← huu]⟩
  · exact ⟨t, u, rfl, hu, rfl⟩

theorem ne_nil_of_isEmpty_eq_false {α : Type} {l : List α}
    (h : l.isEmpty = false) : l ≠ [] := by
  cases l
  · simp at h
  · simp

theorem claim_C7_witness :
    c7Link.rel = some "term" ∧
    (∃ r ∈ (buildCatalog c7Doc "").catalog.back_matter.resources,
      c7Link.href = "#" ++ r.uuid) ∧
    (∃ t u, c7Link.text = some t ∧
      mapGet (buildTermUUIDMap c7Doc.FRD.data) (strLower t) = some u ∧
      c7Link.href = "#" ++ u) := by
  have hc : c7Ctrl ∈ allCatalogControls (buildCatalog c7Doc "").catalog :=
    @headD_mem _ (allCatalogControls (buildCatalog c7Doc "").catalog)
      (ne_nil_of_isEmpty_eq_false rfl) { id := "", title := "" }
  have hl : c7Link ∈ c7Ctrl.linksL :=
    @headD_mem _ c7Ctrl.linksL (ne_nil_of_isEmpty_eq_false rfl) { href := "" }
  have hrel : c7Link.rel = some "term" := rfl
  exact ⟨hrel, claim_C7_term_link_integrity c7Doc "" c7Ctrl c7Link hc hl hrel⟩

/-! ## Namespace separation (C9): supporting facts

The nine derived sub-namespaces are pairwise distinct, and concrete keys
hash to distinct identifiers under different tags.  The universal claim —
distinct identifiers for EVERY key under two different tags — is exactly
collision-freedom of (truncated) SHA-1 over these fixed prefix families
and is neither provable nor refutable from the algorithm itself. -/

theorem NAMESPACES_pairwise_distinct :
    ([NAMESPACES .catalog, NAMESPACES .frd_term, NAMESPACES .frr_control,
      NAMESPACES .ksi_control, NAMESPACES .mapping_collection,
      NAMESPACES .mapping_entry, NAMESPACES .party, NAMESPACES .group,
      NAMESPACES .mapping] : List String).Nodup := by decide

theorem generateUUID_sample_distinct :
    generateUUID .frd_term "FRD-ACV" ≠ generateUUID .mapping_entry "FRD-ACV" ∧
    generateUUID .catalog "x" ≠ generateUUID .group "x" := by decide

/-! ## Claim C1: document-wide id uniqueness -/

theorem buildProcessGroup_gid (pk : String) (p : FRRProcess)
    (tm : List (String × String)) :
    (buildProcessGroup pk p tm).gid = some (strLower pk) := rfl

theorem buildKSIDomainGroup_gid (d : KSIDomain)
    (tm : List (String × String)) :
    (buildKSIDomainGroup d tm).gid = some (strLower d.id) := rfl

theorem buildIndicatorControl_id (iid : String) (ind : KSIIndicator)
    (tm : List (String × String)) :
    (buildIndicatorControl iid ind tm).id = strLower iid := rfl

theorem filterMap_gid_map {α : Type} (f : α → Group) (s : α → String)
    (l : List α) (h : ∀ a, (f a).gid = some (s a)) :
    (l.map f).filterMap Group.gid = l.map s := by
  induction l with
  | nil => rfl
  | cons x t ih => simp [List.filterMap_cons, h, ih]

theorem flatMap_congr {α β : Type} {f g : α → List β} (l : List α)
    (h : ∀ a ∈ l, f a = g a) : l.flatMap f = l.flatMap g := by
  induction l with
  | nil => rfl
  | cons x t ih =>
    simp only [List.flatMap_cons]
    rw [h x (List.mem_cons_self x t), ih (fun a ha => h a (List.mem_cons_of_mem x ha))]

/-- The ids of the built catalog, segment by segment: lowercased process
keys, the indicators-group id, lowercased domain ids, the per-process
requirement control ids, and the lowercased indicator keys. -/
theorem catalogIds_buildCatalog (d : FRMRData) (now : String) :
    catalogIds (buildCatalog d now).catalog =
      (d.FRR.map (fun pr => strLower pr.1) ++ ["key-security-indicators"]) ++
      d.KSI.map (fun dm => strLower dm.2.id) ++
      d.FRR.flatMap (fun pr => processControlIds pr.2) ++
      d.KSI.flatMap (fun dm =>
        dm.2.indicators.map (fun ind => strLower ind.1)) := by
  unfold buildCatalog catalogIds
  simp only
  have hsubs : ((d.FRR.map (fun pr => buildProcessGroup pr.1 pr.2
      (buildTermUUIDMap d.FRD.data)) ++
      [Group.mk (some "key-security-indicators") "Key Security Indicators"
        none none none (some (d.KSI.map (fun dm => buildKSIDomainGroup dm.2
          (buildTermUUIDMap d.FRD.data))))]).flatMap Group.subgroupsL) =
      d.KSI.map (fun dm => buildKSIDomainGroup dm.2
        (buildTermUUIDMap d.FRD.data)) := by
    rw [List.flatMap_append, flatMap_map]
    have h1 : d.FRR.flatMap (fun pr => (buildProcessGroup pr.1 pr.2
        (buildTermUUIDMap d.FRD.data)).subgroupsL) = [] := by
      rw [List.flatMap_eq_nil_iff.mpr]
      intro pr _
      rfl
    rw [h1]
    simp [Group.subgroupsL, Group.subgroups]
  rw [hsubs]
  rw [List.filterMap_append,
    filterMap_gid_map
      (fun pr => buildProcessGroup pr.1 pr.2 (buildTermUUIDMap d.FRD.data))
      (fun pr => strLower pr.1) d.FRR
      (fun pr => buildProcessGroup_gid pr.1 pr.2 _),
    filterMap_gid_map
      (fun dm => buildKSIDomainGroup dm.2 (buildTermUUIDMap d.FRD.data))
      (fun dm => strLower dm.2.id) d.KSI
      (fun dm => buildKSIDomainGroup_gid dm.2 _)]
  rw [List.flatMap_append, flatMap_map, flatMap_map]
  have h2 : d.FRR.flatMap (fun pr => ((buildProcessGroup pr.1 pr.2
      (buildTermUUIDMap d.FRD.data)).controlsL).map Control.id) =
      d.FRR.flatMap (fun pr => processControlIds pr.2) :=
    flatMap_congr _ (fun pr _ => processGroup_control_ids pr.1 pr.2 _)
  have h3 : d.KSI.flatMap (fun dm => ((buildKSIDomainGroup dm.2
      (buildTermUUIDMap d.FRD.data)).controlsL).map Control.id) =
      d.KSI.flatMap (fun dm =>
        dm.2.indicators.map (fun ind => strLower ind.1)) := by
    apply flatMap_congr
    intro dm _
    rw [buildKSIDomainGroup_controlsL, List.map_map]
    rfl
  rw [h2, h3]
  simp only [List.flatMap_cons, List.flatMap_nil, List.append_nil,
    List.filterMap_cons]
  simp [Group.gid, Group.controlsL, Group.controls, List.append_assoc]

theorem nodup_flatMap_of {α β : Type} (f : α → List β) (l : List α)
    (h1 : ∀ a ∈ l, (f a).Nodup)
    (h2 : l.Pairwise (fun a b => ∀ x ∈ f a, x ∉ f b)) :
    (l.flatMap f).Nodup := by
  induction l with
  | nil => simp
  | cons x t ih =>
    rw [List.flatMap_cons, List.nodup_append]
    rcases List.pairwise_cons.mp h2 with ⟨hx, ht⟩
    refine ⟨h1 x (List.mem_cons_self x t),
      ih (fun a ha => h1 a (List.mem_cons_of_mem x ha)) ht, ?_⟩
    intro y hy hmem
    rcases List.mem_flatMap.mp hmem with ⟨b, hb, hyb⟩
    exact hx b hb y hy hyb

theorem flatMap_nodup_parts {α β : Type} (f : α → List β) (l : List α)
    (h : (l.flatMap f).Nodup) :
    (∀ a ∈ l, (f a).Nodup) ∧
    l.Pairwise (fun a b => ∀ x ∈ f a, x ∉ f b) := by
  induction l with
  | nil => exact ⟨by simp, List.Pairwise.nil⟩
  | cons x t ih =>
    rw [List.flatMap_cons, List.nodup_append] at h
    rcases h with ⟨hx, ht, hdisj⟩
    rcases ih ht with ⟨ha, hp⟩
    refine ⟨?_, ?_⟩
    · intro a ha'
      rcases List.mem_cons.mp ha' with rfl | ha''
      · exact hx
      · exact ha a ha''
    · rw [List.pairwise_cons]
      refine ⟨?_, hp⟩
      intro b hb y hy hyb
      exact hdisj hy (List.mem_flatMap.mpr ⟨b, hb, hyb⟩)

theorem occ_key_mem_dedup {p : FRRProcess}
    {o : String × String × String × FRRRequirement}
    (h : o ∈ processReqOccs p) : o.2.2.1 ∈ reqKeysDedup p := by
  unfold reqKeysDedup
  rw [List.mem_dedup]
  exact List.mem_map_of_mem _ h

/-- Every produced control id of one process is unique under the
case-insensitive source invariant, distinct lowercased keys, and
underscore-free keys and tags. -/
theorem processControlIds_nodup {p : FRRProcess}
    (hinv : ((processReqOccs p).map
      (fun o => (o.1, strLower o.2.2.1))).Nodup)
    (hlows : ((reqKeysDedup p).map strLower).Nodup)
    (hU : ∀ y ∈ (reqKeysDedup p).map strLower, noU y) :
    (processControlIds p).Nodup := by
  unfold processControlIds
  show ((processReqOccs p).map _).Pairwise (· ≠ ·)
  rw [List.pairwise_map]
  have hinv' : (processReqOccs p).Pairwise
      (fun o1 o2 => (o1.1, strLower o1.2.2.1) ≠ (o2.1, strLower o2.2.2.1)) :=
    List.pairwise_map.mp hinv
  apply List.Pairwise.imp_of_mem ?_ hinv'
  intro o1 o2 h1 h2 hne heq
  have hk1 : strLower o1.2.2.1 ∈ (reqKeysDedup p).map strLower :=
    List.mem_map_of_mem _ (occ_key_mem_dedup h1)
  have hk2 : strLower o2.2.2.1 ∈ (reqKeysDedup p).map strLower :=
    List.mem_map_of_mem _ (occ_key_mem_dedup h2)
  by_cases c1 : 2 ≤ (processReqKeys p).count o1.2.2.1 <;>
    by_cases c2 : 2 ≤ (processReqKeys p).count o2.2.2.1
  · rw [if_pos c1, if_pos c2] at heq
    rcases underscore_append_inj (hU _ hk1) (hU _ hk2) heq with ⟨hl, ha⟩
    exact hne (by rw [ha, hl])
  · rw [if_pos c1, if_neg c2] at heq
    exact noU_ne_suffixed (hU _ hk2) heq.symm
  · rw [if_neg c1, if_pos c2] at heq
    exact noU_ne_suffixed (hU _ hk1) heq
  · rw [if_neg c1, if_neg c2] at heq
    by_cases hk : o1.2.2.1 = o2.2.2.1
    · have ho12 : o1 ≠ o2 := by
        intro he
        exact hne (by rw [he])
      have := two_mem_count
        (fun o : String × String × String × FRRRequirement => o.2.2.1)
        (processReqOccs p) o1 o2 h1 h2 ho12 hk
      exact c1 this
    · exact nodup_map_ne hlows (occ_key_mem_dedup h1)
        (occ_key_mem_dedup h2) hk heq

/-- The control ids of two processes are disjoint when their lowercased
requirement keys are. -/
theorem ids_disjoint_of_lows_disjoint {p1 p2 : FRRProcess}
    (hd : ∀ y ∈ (reqKeysDedup p1).map strLower,
      y ∉ (reqKeysDedup p2).map strLower)
    (hU1 : ∀ y ∈ (reqKeysDedup p1).map strLower, noU y)
    (hU2 : ∀ y ∈ (reqKeysDedup p2).map strLower, noU y) :
    ∀ x ∈ processControlIds p1, x ∉ processControlIds p2 := by
  intro x hx1 hx2
  rcases List.mem_map.mp hx1 with ⟨o1, ho1, he1⟩
  rcases List.mem_map.mp hx2 with ⟨o2, ho2, he2⟩
  have hk1 : strLower o1.2.2.1 ∈ (reqKeysDedup p1).map strLower :=
    List.mem_map_of_mem _ (occ_key_mem_dedup ho1)
  have hk2 : strLower o2.2.2.1 ∈ (reqKeysDedup p2).map strLower :=
    List.mem_map_of_mem _ (occ_key_mem_dedup ho2)
  have heq := he1.trans he2.symm
  by_cases c1 : 2 ≤ (processReqKeys p1).count o1.2.2.1 <;>
    by_cases c2 : 2 ≤ (processReqKeys p2).count o2.2.2.1
  · rw [if_pos c1, if_pos c2] at heq
    rcases underscore_append_inj (hU1 _ hk1) (hU2 _ hk2) heq with ⟨hl, _⟩
    exact hd _ hk1 (hl ▸ hk2)
  · rw [if_pos c1, if_neg c2] at heq
    exact noU_ne_suffixed (hU2 _ hk2) heq.symm
  · rw [if_neg c1, if_pos c2] at heq
    exact noU_ne_suffixed (hU1 _ hk1) heq
  · rw [if_neg c1, if_neg c2] at heq
    exact hd _ hk1 (heq ▸ hk2)

/-- C1 counterexample: `c1Doc` passes source validation and satisfies the
§3 invariant (no requirement key recurs across labels within one
applicability partition), yet the catalog produced from it has a duplicate
control id. -/
theorem claim_C1_counterexample :
    validateSource c1Doc = [] ∧
    (∀ pr ∈ c1Doc.FRR,
      ((processReqOccs pr.2).map (fun o => (o.1, o.2.2.1))).Nodup) ∧
    ¬ (catalogIds (buildCatalog c1Doc "").catalog).Nodup := by
  refine ⟨by decide, by decide, ?_⟩
  rw [catalogIds_buildCatalog]
  decide

theorem procLow_mem_docTokens {d : FRMRData} {x : String}
    (h : x ∈ d.FRR.map (fun pr => strLower pr.1)) : x ∈ docTokens d := by
  unfold docTokens
  simp only [List.mem_append]
  exact Or.inl (Or.inl (Or.inl (Or.inl h)))

theorem ksiTok_mem_docTokens {d : FRMRData} {x : String}
    (h : x ∈ ["key-security-indicators"]) : x ∈ docTokens d := by
  unfold docTokens
  simp only [List.mem_append]
  exact Or.inl (Or.inl (Or.inl (Or.inr h)))

theorem domLow_mem_docTokens {d : FRMRData} {x : String}
    (h : x ∈ d.KSI.map (fun dm => strLower dm.2.id)) : x ∈ docTokens d := by
  unfold docTokens
  simp only [List.mem_append]
  exact Or.inl (Or.inl (Or.inr h))

theorem indLow_mem_docTokens {d : FRMRData} {x : String}
    (h : x ∈ d.KSI.flatMap (fun dm =>
      dm.2.indicators.map (fun ind => strLower ind.1))) : x ∈ docTokens d := by
  unfold docTokens
  simp only [List.mem_append]
  exact Or.inl (Or.inr h)

theorem reqLow_mem_docTokens {d : FRMRData} {x : String}
    (h : x ∈ d.FRR.flatMap (fun pr => (reqKeysDedup pr.2).map strLower)) :
    x ∈ docTokens d := by
  unfold docTokens
  simp only [List.mem_append]
  exact Or.inr h

/-- A token list known to lie inside `docTokens`, disjoint from the
lowercased requirement keys, is disjoint from the produced control ids. -/
theorem token_disjoint_controlIds {d : FRMRData}
    (hund : ∀ s ∈ docTokens d, noU s) {L : List String}
    (hsub : ∀ x ∈ L, x ∈ docTokens d)
    (hdj5 : L.Disjoint (d.FRR.flatMap (fun pr =>
      (reqKeysDedup pr.2).map strLower))) :
    L.Disjoint (d.FRR.flatMap (fun pr => processControlIds pr.2)) := by
  intro x hxL hxC
  rcases List.mem_flatMap.mp hxC with ⟨pr, hpr, hx⟩
  rcases List.mem_map.mp hx with ⟨o, ho, he⟩
  by_cases c : 2 ≤ (processReqKeys pr.2).count o.2.2.1
  · rw [if_pos c] at he
    exact noU_ne_suffixed (hund x (hsub x hxL)) he.symm
  · rw [if_neg c] at he
    apply hdj5 hxL
    refine List.mem_flatMap.mpr ⟨pr, hpr, ?_⟩
    rw [← he]
    exact List.mem_map_of_mem _ (occ_key_mem_dedup ho)

/-- C1 (amended): every Group id and Control id of the produced catalog is
unique across the whole document, provided the source satisfies the
case-insensitive strengthening of the §3 invariants that the builder's
disambiguation cannot itself enforce: no (applicability, lowercased key)
pair recurs within a process, and all lowercased identifier tokens —
process keys, "key-security-indicators", domain ids, indicator keys, and
the per-process distinct requirement keys — are pairwise distinct and free
of underscores.  Without these extra conditions uniqueness fails, as the
counterexample shows. -/
theorem claim_C1_amended_id_uniqueness (d : FRMRData) (now : String)
    (htok : (docTokens d).Nodup)
    (hund : ∀ s ∈ docTokens d, noU s)
    (hinv : ∀ pr ∈ d.FRR,
      ((processReqOccs pr.2).map (fun o => (o.1, strLower o.2.2.1))).Nodup) :
    (catalogIds (buildCatalog d now).catalog).Nodup := by
  rw [catalogIds_buildCatalog]
  unfold docTokens at htok
  simp only [List.nodup_append, List.disjoint_append_left,
    List.disjoint_append_right] at htok ⊢
  obtain ⟨⟨hB, ndT4, hj14, djT3T4⟩, ndT5,
    ⟨⟨djT1T5, djKT5⟩, djT3T5⟩, djT4T5⟩ := htok
  obtain ⟨hperProc, hpair⟩ := flatMap_nodup_parts _ d.FRR ndT5
  have hUlow : ∀ pr ∈ d.FRR, ∀ y ∈ (reqKeysDedup pr.2).map strLower,
      noU y := fun pr hpr y hy =>
    hund y (reqLow_mem_docTokens (List.mem_flatMap.mpr ⟨pr, hpr, hy⟩))
  have ndC : (d.FRR.flatMap (fun pr => processControlIds pr.2)).Nodup := by
    apply nodup_flatMap_of
    · intro pr hpr
      exact processControlIds_nodup (hinv pr hpr) (hperProc pr hpr)
        (hUlow pr hpr)
    · apply List.Pairwise.imp_of_mem ?_ hpair
      intro pr1 pr2 h1 h2 hd
      exact ids_disjoint_of_lows_disjoint hd (hUlow pr1 h1) (hUlow pr2 h2)
  have djT1C : (d.FRR.map (fun pr => strLower pr.1)).Disjoint
      (d.FRR.flatMap (fun pr => processControlIds pr.2)) :=
    token_disjoint_controlIds hund
      (fun x hx => procLow_mem_docTokens hx) djT1T5
  have djKC : (["key-security-indicators"] : List String).Disjoint
      (d.FRR.flatMap (fun pr => processControlIds pr.2)) :=
    token_disjoint_controlIds hund
      (fun x hx => ksiTok_mem_docTokens hx) djKT5
  have djT3C : (d.KSI.map (fun dm => strLower dm.2.id)).Disjoint
      (d.FRR.flatMap (fun pr => processControlIds pr.2)) :=
    token_disjoint_controlIds hund
      (fun x hx => domLow_mem_docTokens hx) djT3T5
  have djCT4 : (d.FRR.flatMap (fun pr => processControlIds pr.2)).Disjoint
      (d.KSI.flatMap (fun dm =>
        dm.2.indicators.map (fun ind => strLower ind.1))) := by
    intro x hxC hxT4
    exact token_disjoint_controlIds hund
      (fun y hy => indLow_mem_docTokens hy)
      (fun y hy4 hy5 => djT4T5 hy4 hy5) hxT4 hxC
  exact ⟨⟨hB, ndC, ⟨djT1C, djKC⟩, djT3C⟩, ndT4, ⟨hj14, djT3T4⟩, djCT4⟩

theorem claim_C1_witness :
    (docTokens c1GoodDoc).Nodup ∧
    (catalogIds (buildCatalog c1GoodDoc "").catalog).Nodup :=
  ⟨by decide,
   claim_C1_amended_id_uniqueness c1GoodDoc "" (by decide) (by decide)
     (by decide)⟩

/-! ## Claim C8: the round-trip scenario -/

/-- C8: on the fixed minimal input, the catalog has exactly one back-matter
glossary resource; the (first and only) requirement control carries a
"term"-relation link to that resource with the original reference text
"ET"; and the mapping collection has exactly one entry whose single source
id-ref is the lowercased indicator key and whose single target id-ref is
"ac-2". -/
theorem claim_C8_round_trip :
    ((buildCatalog c8Doc "").catalog.back_matter.resources.map
      (fun r => r.uuid)) = [generateUUID .frd_term "term-1"] ∧
    ((allCatalogControls (buildCatalog c8Doc "").catalog).headD
       { id := "", title := "" }).id = "r-1" ∧
    (({ href := "#" ++ generateUUID .frd_term "term-1", rel := some "term",
        text := some "ET" } : Link) ∈
      ((allCatalogControls (buildCatalog c8Doc "").catalog).headD
        { id := "", title := "" }).linksL) ∧
    mapsOf (buildMappingCollection c8Doc "") =
      [{ uuid := generateUUID .mapping_entry "KSI-1",
         relationship := "superset-of",
         sources := [{ type := "control", id_ref := strLower "KSI-1" }],
         targets := [{ type := "control", id_ref := "ac-2" }] }] := by
  refine ⟨rfl, rfl, ?_, rfl⟩
  have h : ((allCatalogControls (buildCatalog c8Doc "").catalog).headD
      { id := "", title := "" }).linksL =
      [{ href := "#" ++ generateUUID .frd_term "term-1", rel := some "term",
         text := some "ET" }] := rfl
  rw [h]
  exact List.mem_singleton.mpr rfl

/-! ## Claim C5: validator completeness -/

/-- C5: a source document with a nonempty version, an empty (missing)
indicators section, and a nonempty requirements section whose only
requirement lacks both a flat statement and level variants, collects
exactly two violations — the indicators-section one and the one naming the
statement-less requirement — with no short-circuit. -/
theorem claim_C5_validator_completeness (data : FRMRData)
    (app label rid : String) (req : FRRRequirement)
    (hver : data.info.version ≠ "")
    (hksi : data.KSI = [])
    (hocc : allReqOccs data = [(app, label, rid, req)])
    (hstmt : truthyStr req.statement = false)
    (hvar : req.varies_by_level = none) :
    validateSource data =
      ["Missing or empty KSI section",
       "Requirement " ++ rid ++ " has no statement or varies_by_level"] ∧
    (validateSource data).length = 2 := by
  have hfrr : data.FRR ≠ [] := by
    intro h0
    have : allReqOccs data = [] := by
      unfold allReqOccs
      rw [h0]
      rfl
    rw [this] at hocc
    cases hocc
  have h1 : validateSource data =
      ["Missing or empty KSI section",
       "Requirement " ++ rid ++ " has no statement or varies_by_level"] := by
    unfold validateSource
    rw [hocc, hksi, beq_eq_false_iff_ne.mpr hver]
    simp [List.isEmpty_iff, hfrr, hstmt, hvar]
  exact ⟨h1, by rw [h1]; rfl⟩

theorem claim_C5_witness :
    validateSource c5Doc =
      ["Missing or empty KSI section",
       "Requirement " ++ "R-1" ++ " has no statement or varies_by_level"] ∧
    (validateSource c5Doc).length = 2 :=
  claim_C5_validator_completeness c5Doc "a" "L" "R-1" {}
    (by decide) rfl rfl rfl rfl

theorem claim_C10_witness :
    validateSource (soloReqDoc "R-1" c10Req) = [] ∧
    (∃ stmt : Part,
      ((buildRequirementControl "R-1" c10Req "a" "L" [] false).partsL.filter
        (fun p => p.pname == "statement")) = [stmt] ∧
      stmt.prose = none ∧
      stmt.subparts.map Part.prose =
        [("low", ({ statement := "low s", primary_key_word := "MUST" } :
          LevelVariant))].map (fun lv => some lv.2.statement)) ∧
    (∀ p ∈ (buildRequirementControl "R-1" c10Req "a" "L" [] false).propsL,
      p.name ≠ "keyword" ∧ p.name ≠ "timeframe-type" ∧
      p.name ≠ "timeframe-num") :=
  claim_C10_both_shapes_silent "R-1" c10Req "a" "L" [] false
    "flat statement" [("low", { statement := "low s", primary_key_word := "MUST" })]
    rfl rfl

end FRMROscal
